import Mathlib

/-!
Verification development for the WhirlWheel crossword puzzle generator.

The TypeScript / JavaScript sources are shallowly embedded into Lean:

* JavaScript numbers are embedded as exact rationals.  Every arithmetic
  operation performed by the generator on the inputs we study stays well
  inside the exactly-representable range of IEEE doubles, so exact rational
  arithmetic is the faithful model.  To keep all definitions kernel-computable
  we use an unreduced fraction type `Q` (numerator / denominator as integers,
  no gcd normalisation) together with a semantic map `Q.toRat` into Mathlib
  rationals for stating order/value facts.
* `Array.prototype.sort` with a comparator `cmp` is embedded as a stable
  insertion sort `sortBy le` with `le a b = (cmp a b <= 0)`; ECMAScript
  requires sort stability, and a stable insertion sort realises exactly the
  specified order.
* JavaScript `Map`s / objects keyed by cell coordinates are embedded as
  insertion-ordered association lists, with the JS update semantics
  (overwrite in place, append new keys at the end).
* `Math.sin`-based seeded randomness (`seededRandom`) computes with IEEE
  doubles; the produced float stream is embedded as an explicit parameter
  `rng : Int -> Q` of the generator.  `Date.now()` / `Math.random()` based
  id generation is embedded as an explicit stream `ids : Nat -> String`
  giving the value returned by the k-th `generateId()` call.
* Thrown exceptions become `Except` values.
-/

namespace WhirlWheel

/-! ### Stable sort, modelling `Array.prototype.sort` -/

/-- Insert `x` into `l` before the first element `y` with `le x y`.
Used to build a stable insertion sort. -/
def insertLe (le : α → α → Bool) (x : α) : List α → List α
  | [] => [x]
  | y :: ys => if le x y then x :: y :: ys else y :: insertLe le x ys

/-- Stable insertion sort; embeds `Array.prototype.sort(cmp)` with
`le a b` meaning `cmp a b <= 0`. -/
def sortBy (le : α → α → Bool) : List α → List α
  | [] => []
  | x :: xs => insertLe le x (sortBy le xs)

/-! ### Q: exact-rational model of JavaScript numbers -/

/-- Exact unreduced fraction; the model of an ECMAScript number produced by
the generator arithmetic.  Denominators stay positive along every code path
of the embedded program. -/
structure Q where
  num : Int
  den : Int
deriving DecidableEq, Repr

instance : OfNat Q n := ⟨⟨n, 1⟩⟩

/-- Addition of fractions (JS `+`). -/
def Q.add (a b : Q) : Q := ⟨a.num * b.den + b.num * a.den, a.den * b.den⟩

instance : Add Q := ⟨Q.add⟩

/-- Subtraction of fractions (JS `-`). -/
def Q.sub (a b : Q) : Q := ⟨a.num * b.den - b.num * a.den, a.den * b.den⟩

instance : Sub Q := ⟨Q.sub⟩

/-- Multiplication of fractions (JS `*`). -/
def Q.mul (a b : Q) : Q := ⟨a.num * b.num, a.den * b.den⟩

instance : Mul Q := ⟨Q.mul⟩

/-- Division of fractions (JS `/`); all divisions performed by the embedded
code have a positive divisor, keeping denominators positive. -/
def Q.div (a b : Q) : Q := ⟨a.num * b.den, a.den * b.num⟩

/-- Boolean comparison `a <= b`; correct whenever both denominators are
positive, which holds on every code path of the embedded program. -/
def Q.ble (a b : Q) : Bool := decide (a.num * b.den ≤ b.num * a.den)

/-- Boolean comparison `a < b`; correct whenever both denominators are
positive. -/
def Q.blt (a b : Q) : Bool := decide (a.num * b.den < b.num * a.den)

/-- JS `Math.min` on two numbers. -/
def Q.minQ (a b : Q) : Q := if Q.ble a b then a else b

/-- JS `Math.max` on two numbers. -/
def Q.maxQ (a b : Q) : Q := if Q.ble a b then b else a

/-- JS `Math.floor`; `Int.fdiv` rounds toward negative infinity, which is
floor division for positive denominators. -/
def Q.floorQ (q : Q) : Int := Int.fdiv q.num q.den

/-- JS `Math.round` (round half toward positive infinity). -/
def Q.roundQ (q : Q) : Int := Q.floorQ (q + ⟨1, 2⟩)

/-- Semantics of a `Q` value as a Mathlib rational. -/
def Q.toRat (q : Q) : ℚ := (q.num : ℚ) / (q.den : ℚ)

/-- Integer embedding. -/
def Q.ofInt (n : Int) : Q := ⟨n, 1⟩

/-! ### Lexicographic string order (ASCII `localeCompare` / default sort) -/

/-- Lexicographic comparison of character lists by code points; for the
ASCII uppercase strings handled by the generator this is exactly both
`localeCompare` order and the default JS string sort order. -/
def chListLe : List Char → List Char → Bool
  | [], _ => true
  | _ :: _, [] => false
  | a :: as, b :: bs => if a = b then chListLe as bs else decide (a < b)

/-- String comparison `a <= b` in code-point order. -/
def strLe (a b : String) : Bool := chListLe a.toList b.toList

/-- Uppercase a string character by character (embedding of
`word.toUpperCase()` on the Latin alphabet handled by the generator). -/
def strUpper (s : String) : String := String.mk (s.toList.map Char.toUpper)

/-! ### src/puzzleGenerator/wordFinder.ts -/

/-- Embedding of `countLetters`: the letter-count map built from an array of
letters, represented as its counting function. -/
def countLetters (letters : List Char) : Char → Nat :=
  fun c => (letters.map Char.toUpper).count c

/-- Embedding of `canFormWord`: every letter needed by `word` (after
uppercasing) is available often enough in `availableLetters`. -/
def canFormWord (word : String) (availableLetters : Char → Nat) : Bool :=
  let needed := countLetters word.toList
  (word.toList.map Char.toUpper).all fun c => needed c ≤ availableLetters c

/-- Comparator of `findValidWords`: length descending, then `localeCompare`
ascending; `wordLenAlphaLe a b` means the JS comparator returns `<= 0`. -/
def wordLenAlphaLe (a b : String) : Bool :=
  if a.length = b.length then strLe a b else decide (b.length < a.length)

/-- Embedding of `findValidWords`.  The JS dictionary is a `Set` iterated in
insertion order, embedded as a list. -/
def findValidWords (letters : List Char) (dictionary : List String)
    (minLength maxLength : Nat) : List String :=
  let letterCounts := countLetters letters
  let validWords :=
    (dictionary.filter fun word =>
      decide (minLength ≤ word.length) && decide (word.length ≤ maxLength) &&
        canFormWord word letterCounts).map strUpper
  sortBy wordLenAlphaLe validWords

/-! ### src/puzzleGenerator/intersectionGraph.ts -/

/-- Embedding of the `Intersection` record. -/
structure Intersection where
  wordA : String
  indexA : Nat
  wordB : String
  indexB : Nat
  letter : Char
deriving DecidableEq, Repr

/-- All crossing points between two words, in the nested-loop order of
`buildIntersectionGraph`. -/
def wordIntersections (wordA wordB : String) : List Intersection :=
  wordA.toList.enum.flatMap fun p =>
    wordB.toList.enum.filterMap fun q =>
      if p.2 = q.2 then some ⟨wordA, p.1, wordB, q.1, p.2⟩ else none

/-- The intersection graph: nested insertion-ordered maps embedded as nested
association lists.  Inner entries exist only for non-empty intersection
lists, as in the source. -/
def buildIntersectionGraph (words : List String) :
    List (String × List (String × List Intersection)) :=
  words.enum.map fun p =>
    (p.2, words.enum.filterMap fun q =>
      if p.1 = q.1 then none
      else
        let inters := wordIntersections p.2 q.2
        if inters.isEmpty then none else some (q.2, inters))

/-- Embedding of `getIntersections`. -/
def getIntersections (graph : List (String × List (String × List Intersection)))
    (wordA wordB : String) : List Intersection :=
  match graph.find? fun p => p.1 = wordA with
  | none => []
  | some entry =>
    match entry.2.find? fun p => p.1 = wordB with
    | none => []
    | some inner => inner.2

/-- Embedding of `countWordConnections`. -/
def countWordConnections
    (graph : List (String × List (String × List Intersection)))
    (word : String) : Nat :=
  match graph.find? fun p => p.1 = word with
  | none => 0
  | some entry => (entry.2.map fun p => p.2.length).sum

/-! ### Grid placer (src/unnamed/part_014, gridPlacer.ts) -/

/-- Embedding of the `Direction` union type. -/
inductive Direction
  | horizontal
  | vertical
deriving DecidableEq, Repr

/-- Embedding of the `PlacedWord` record. -/
structure PlacedWord where
  word : String
  row : Int
  col : Int
  direction : Direction
deriving DecidableEq, Repr

/-- Embedding of the grid `bounds` record. -/
structure GridBounds where
  minRow : Int
  maxRow : Int
  minCol : Int
  maxCol : Int
deriving DecidableEq, Repr

/-- Embedding of the `Grid` record; `cells` is the string-keyed cell map,
embedded as an insertion-ordered association list keyed by `(row, col)`. -/
structure Grid where
  cells : List ((Int × Int) × Char)
  placedWords : List PlacedWord
  bounds : GridBounds
deriving DecidableEq, Repr

/-- Embedding of `createGrid`. -/
def createGrid : Grid := ⟨[], [], ⟨0, 0, 0, 0⟩⟩

/-- Embedding of `getCell`: `undefined` becomes `none`. -/
def getCell (grid : Grid) (row col : Int) : Option Char :=
  (grid.cells.find? fun p => p.1 = (row, col)).map fun p => p.2

/-- JS object / map assignment on the cell store: overwrite an existing key
in place, append a fresh key at the end. -/
def assocSet : List ((Int × Int) × Char) → (Int × Int) → Char →
    List ((Int × Int) × Char)
  | [], k, v => [(k, v)]
  | p :: rest, k, v =>
    if p.1 = k then (k, v) :: rest else p :: assocSet rest k v

/-- Embedding of `setCell`, including the bounds update (the first write
initialises the bounds, later writes extend them). -/
def setCell (grid : Grid) (row col : Int) (letter : Char) : Grid :=
  let bounds :=
    if grid.cells.length = 0 then GridBounds.mk row row col col
    else
      ⟨min grid.bounds.minRow row, max grid.bounds.maxRow row,
        min grid.bounds.minCol col, max grid.bounds.maxCol col⟩
  ⟨assocSet grid.cells (row, col) letter, grid.placedWords, bounds⟩

/-- Embedding of `cloneGrid`; in the pure embedding a deep copy is the
identity. -/
def cloneGrid (grid : Grid) : Grid := grid

/-- One cell a word would occupy. -/
structure WordCell where
  r : Int
  c : Int
  letter : Char
deriving DecidableEq, Repr

/-- Embedding of `getWordCells`. -/
def getWordCells (word : String) (row col : Int) (direction : Direction) :
    List WordCell :=
  word.toList.enum.map fun p =>
    match direction with
    | .horizontal => ⟨row, col + p.1, p.2⟩
    | .vertical => ⟨row + p.1, col, p.2⟩

/-- The five failure reasons produced by `validatePlacement`; each
constructor corresponds to one of the reason-string templates of the
source. -/
inductive Violation
  | letterConflict (r c : Int)
  | parallelAdjacency (r c : Int)
  | beforeOccupied (r c : Int)
  | afterOccupied (r c : Int)
  | noIntersection
deriving DecidableEq, Repr

/-- Embedding of the `ValidationResult` record. -/
structure ValidationResult where
  valid : Bool
  reason : Option Violation
deriving DecidableEq, Repr

/-- The per-cell loop of `validatePlacement`: for each cell in word order it
checks rule 1 (letter agreement) then rule 2 (no parallel adjacency),
accumulating the intersection count; the first failing check aborts. -/
def scanCells (grid : Grid) (direction : Direction) :
    List WordCell → Nat → Except Violation Nat
  | [], n => .ok n
  | cell :: rest, n =>
    if getCell grid cell.r cell.c ≠ none ∧
        getCell grid cell.r cell.c ≠ some cell.letter then
      .error (.letterConflict cell.r cell.c)
    else if
      ((match direction with
        | .horizontal =>
          [getCell grid (cell.r - 1) cell.c, getCell grid (cell.r + 1) cell.c]
        | .vertical =>
          [getCell grid cell.r (cell.c - 1), getCell grid cell.r (cell.c + 1)]).any
          fun x => x ≠ none) ∧
        ¬ getCell grid cell.r cell.c = some cell.letter then
      .error (.parallelAdjacency cell.r cell.c)
    else
      scanCells grid direction rest
        (if getCell grid cell.r cell.c = some cell.letter then n + 1 else n)

/-- Worker for `validatePlacement`: the early-return chain of the source as
an `Except` computation returning the intersection count. -/
def validatePlacementE (word : String) (row col : Int) (direction : Direction)
    (grid : Grid) : Except Violation Nat :=
  match scanCells grid direction (getWordCells word row col direction) 0 with
  | .error v => .error v
  | .ok intersectionCount =>
    let before : Int × Int :=
      match direction with
      | .horizontal => (row, col - 1)
      | .vertical => (row - 1, col)
    if getCell grid before.1 before.2 ≠ none then
      .error (.beforeOccupied before.1 before.2)
    else
      let after : Int × Int :=
        match direction with
        | .horizontal => (row, col + word.length)
        | .vertical => (row + word.length, col)
      if getCell grid after.1 after.2 ≠ none then
        .error (.afterOccupied after.1 after.2)
      else if 0 < grid.placedWords.length ∧ intersectionCount = 0 then
        .error .noIntersection
      else
        .ok intersectionCount

/-- Embedding of `validatePlacement`. -/
def validatePlacement (word : String) (row col : Int) (direction : Direction)
    (grid : Grid) : ValidationResult :=
  match validatePlacementE word row col direction grid with
  | .error v => ⟨false, some v⟩
  | .ok _ => ⟨true, none⟩

/-- Embedding of `placeWord`: the `throw` of the source becomes an `Except`
error carrying the rejection reason; on success the input grid is cloned,
the cells of the word are written, and the placed-word record is pushed. -/
def placeWord (grid : Grid) (word : String) (row col : Int)
    (direction : Direction) : Except Violation Grid :=
  match validatePlacementE word row col direction grid with
  | .error v => .error v
  | .ok _ =>
    let newGrid :=
      (getWordCells word row col direction).foldl
        (fun g cell => setCell g cell.r cell.c cell.letter) (cloneGrid grid)
    .ok ⟨newGrid.cells, newGrid.placedWords ++ [⟨word, row, col, direction⟩],
      newGrid.bounds⟩

/-- Embedding of the `PlacementCandidate` record. -/
structure PlacementCandidate where
  word : String
  row : Int
  col : Int
  direction : Direction
  intersections : Nat
  score : Q
deriving DecidableEq, Repr

/-- Embedding of `findValidPlacements`: for the empty grid the two origin
candidates; otherwise one candidate per intersection of `word` with a placed
word, validated and deduplicated by `(row, col, direction)`, accumulated in
source push order. -/
def findValidPlacements (word : String) (grid : Grid)
    (graph : List (String × List (String × List Intersection))) :
    List PlacementCandidate :=
  if grid.placedWords.length = 0 then
    [⟨word, 0, 0, .horizontal, 0, 0⟩, ⟨word, 0, 0, .vertical, 0, 0⟩]
  else
    grid.placedWords.foldl
      (fun acc placedWord =>
        (getIntersections graph word placedWord.word).foldl
          (fun acc2 inter =>
            let newDirection : Direction :=
              match placedWord.direction with
              | .horizontal => .vertical
              | .vertical => .horizontal
            let pos : Int × Int :=
              match placedWord.direction with
              | .horizontal =>
                (placedWord.row - inter.indexA, placedWord.col + inter.indexB)
              | .vertical =>
                (placedWord.row + inter.indexB, placedWord.col - inter.indexA)
            if (validatePlacement word pos.1 pos.2 newDirection grid).valid then
              if acc2.any fun c =>
                  c.row = pos.1 ∧ c.col = pos.2 ∧ c.direction = newDirection then
                acc2
              else acc2 ++ [⟨word, pos.1, pos.2, newDirection, 1, 0⟩]
            else acc2)
          acc)
      []

/-- The BFS loop of `isGridConnected`, with explicit fuel.  Each iteration
pops one queue entry; at most `1 + 4 * |cells|` entries are ever queued, so
the fuel passed by `isGridConnected` can never run out. -/
def bfsVisit (cells : List ((Int × Int) × Char)) :
    Nat → List (Int × Int) → List (Int × Int) → List (Int × Int)
  | 0, _, visited => visited
  | _ + 1, [], visited => visited
  | fuel + 1, key :: queue, visited =>
    if key ∈ visited then bfsVisit cells fuel queue visited
    else
      let visited2 := visited ++ [key]
      let neighbors :=
        [(key.1 - 1, key.2), (key.1 + 1, key.2),
          (key.1, key.2 - 1), (key.1, key.2 + 1)]
      let pushed := neighbors.filter fun nb =>
        (cells.any fun p => p.1 = nb) && decide (nb ∉ visited2)
      bfsVisit cells fuel (queue ++ pushed) visited2

/-- Embedding of `isGridConnected`: BFS from the first cell key, comparing
the visited count with the cell count. -/
def isGridConnected (grid : Grid) : Bool :=
  match grid.cells with
  | [] => true
  | first :: _ =>
    let visited :=
      bfsVisit grid.cells (4 * grid.cells.length + 2) [first.1] []
    visited.length = grid.cells.length

/-- Embedding of `normalizeGrid`: rebuild the cells shifted so the minimum
row and column become `0`, then shift the placed words. -/
def normalizeGrid (grid : Grid) : Grid :=
  let minRow := grid.bounds.minRow
  let minCol := grid.bounds.minCol
  let shifted :=
    grid.cells.foldl
      (fun g p => setCell g (p.1.1 - minRow) (p.1.2 - minCol) p.2) createGrid
  ⟨shifted.cells,
    grid.placedWords.map fun pw =>
      ⟨pw.word, pw.row - minRow, pw.col - minCol, pw.direction⟩,
    shifted.bounds⟩

/-! ### src/puzzleGenerator/gridScorer.ts -/

/-- Embedding of the `ScoringWeights` record. -/
structure ScoringWeights where
  compactness : Q
  density : Q
  intersections : Q
  symmetry : Q
deriving DecidableEq, Repr

/-- Embedding of `calculateCompactness`. -/
def calculateCompactness (grid : Grid) : Q :=
  if grid.cells.length = 0 then 0
  else
    let width := grid.bounds.maxCol - grid.bounds.minCol + 1
    let height := grid.bounds.maxRow - grid.bounds.minRow + 1
    let area := width * height
    let filledCells := grid.cells.length
    let aspectRatio := Q.div (Q.ofInt (min width height)) (Q.ofInt (max width height))
    let fillRatio := Q.div (Q.ofInt filledCells) (Q.ofInt area)
    aspectRatio * ⟨5, 10⟩ + fillRatio * ⟨5, 10⟩

/-- Embedding of `calculateDensity`. -/
def calculateDensity (grid : Grid) : Q :=
  if grid.cells.length = 0 then 0
  else
    let width := grid.bounds.maxCol - grid.bounds.minCol + 1
    let height := grid.bounds.maxRow - grid.bounds.minRow + 1
    let area := width * height
    Q.div (Q.ofInt grid.cells.length) (Q.ofInt area)

/-- The cell-usage counting shared by `calculateIntersectionScore` and
`calculateMetrics`: a map from cell key to the number of placed words
covering it, embedded as an insertion-ordered association list. -/
def cellUsage (placedWords : List PlacedWord) : List ((Int × Int) × Nat) :=
  placedWords.foldl
    (fun usage pw =>
      (getWordCells pw.word pw.row pw.col pw.direction).foldl
        (fun u cell =>
          let k : Int × Int := (cell.r, cell.c)
          if u.any fun p => p.1 = k then
            u.map fun p => if p.1 = k then (p.1, p.2 + 1) else p
          else u ++ [(k, 1)])
        usage)
    []

/-- Embedding of `calculateIntersectionScore`. -/
def calculateIntersectionScore (grid : Grid) : Q :=
  if grid.placedWords.length ≤ 1 then 1
  else
    let intersections :=
      ((cellUsage grid.placedWords).filter fun p => 1 < p.2).length
    let maxPossible : Int := (grid.placedWords.length : Int) - 1
    if 0 < maxPossible then
      Q.minQ 1 (Q.div (Q.ofInt intersections) (Q.ofInt maxPossible))
    else 1

/-- Embedding of `calculateSymmetry`; the geometric center may be
half-integral, and mirror coordinates are rounded as in the source. -/
def calculateSymmetry (grid : Grid) : Q :=
  if grid.cells.length = 0 then 0
  else
    let width := grid.bounds.maxCol - grid.bounds.minCol + 1
    let height := grid.bounds.maxRow - grid.bounds.minRow + 1
    let centerRow : Q := Q.ofInt grid.bounds.minRow + Q.div (Q.ofInt height) 2
    let centerCol : Q := Q.ofInt grid.bounds.minCol + Q.div (Q.ofInt width) 2
    let hits :=
      grid.cells.filter fun p =>
        let mirrorRow := (2 : Q) * centerRow - Q.ofInt p.1.1
        let mirrorCol := (2 : Q) * centerCol - Q.ofInt p.1.2
        let mirrorKey : Int × Int := (Q.roundQ mirrorRow, Q.roundQ mirrorCol)
        grid.cells.any fun q => q.1 = mirrorKey
    let totalCells := grid.cells.length
    if 0 < totalCells then
      Q.div (Q.ofInt hits.length) (Q.ofInt totalCells)
    else 0

/-- Embedding of `scoreGrid`. -/
def scoreGrid (grid : Grid) (weights : ScoringWeights) : Q :=
  calculateCompactness grid * weights.compactness +
    calculateDensity grid * weights.density +
    calculateIntersectionScore grid * weights.intersections +
    calculateSymmetry grid * weights.symmetry

/-- Embedding of the `PuzzleMetrics` record. -/
structure PuzzleMetrics where
  gridWidth : Int
  gridHeight : Int
  totalCells : Int
  filledCells : Nat
  density : Q
  intersectionCount : Nat
  overallScore : Q
deriving DecidableEq, Repr

/-- Embedding of `calculateMetrics`. -/
def calculateMetrics (grid : Grid) : PuzzleMetrics :=
  let width := grid.bounds.maxCol - grid.bounds.minCol + 1
  let height := grid.bounds.maxRow - grid.bounds.minRow + 1
  let filledCells := grid.cells.length
  let totalCells := width * height
  let intersectionCount :=
    ((cellUsage grid.placedWords).filter fun p => 1 < p.2).length
  ⟨width, height, totalCells, filledCells,
    if 0 < totalCells then Q.div (Q.ofInt filledCells) (Q.ofInt totalCells) else 0,
    intersectionCount, 0⟩

/-- Embedding of `scorePlacementCandidate`. -/
def scorePlacementCandidate (word : String) (row col : Int)
    (direction : Direction) (grid : Grid) (intersections : Nat) : Q :=
  if grid.cells.length = 0 then 100
  else
    let currentWidth := grid.bounds.maxCol - grid.bounds.minCol + 1
    let currentHeight := grid.bounds.maxRow - grid.bounds.minRow + 1
    let newBounds :=
      match direction with
      | .horizontal =>
        (min grid.bounds.minRow row, max grid.bounds.maxRow row,
          min grid.bounds.minCol col,
          max grid.bounds.maxCol (col + word.length - 1))
      | .vertical =>
        (min grid.bounds.minRow row,
          max grid.bounds.maxRow (row + word.length - 1),
          min grid.bounds.minCol col, max grid.bounds.maxCol col)
    let newWidth := newBounds.2.2.2 - newBounds.2.2.1 + 1
    let newHeight := newBounds.2.1 - newBounds.1 + 1
    let newArea := newWidth * newHeight
    let expansionPenalty := newArea - currentWidth * currentHeight
    let aspectRatio :=
      Q.div (Q.ofInt (min newWidth newHeight)) (Q.ofInt (max newWidth newHeight))
    aspectRatio * 100 - Q.ofInt expansionPenalty + Q.ofInt (intersections : Int) * 10

/-! ### src/puzzleGenerator/generator.ts -/

/-- Embedding of the `placementStrategy` union type. -/
inductive Strategy
  | longestFirst
  | mostConnectedFirst
  | random
deriving DecidableEq, Repr

/-- Embedding of the `GeneratorParams` record. -/
structure GeneratorParams where
  minWordLength : Nat
  maxWordLength : Nat
  minWordCount : Nat
  maxWordCount : Nat
  mustIncludeLongestWord : Bool
  placementStrategy : Strategy
  maxPlacementCandidates : Nat
  maxBacktrackDepth : Nat
  compactnessWeight : Q
  densityWeight : Q
  intersectionWeight : Q
  symmetryWeight : Q
  candidatesToGenerate : Nat
deriving DecidableEq, Repr

/-- Embedding of `DEFAULT_PARAMS`. -/
def DEFAULT_PARAMS : GeneratorParams :=
  ⟨3, 10, 4, 8, true, .longestFirst, 10, 5,
    ⟨4, 10⟩, ⟨2, 10⟩, ⟨3, 10⟩, ⟨1, 10⟩, 10⟩

/-- Comparator of the `selectWords` sort for `mostConnectedFirst`:
connections descending, then length descending. -/
def connLenLe (graph : List (String × List (String × List Intersection)))
    (a b : String) : Bool :=
  if countWordConnections graph b = countWordConnections graph a then
    decide (b.length ≤ a.length)
  else decide (countWordConnections graph b < countWordConnections graph a)

/-- Comparator sorting by length descending only. -/
def lenDescLe (a b : String) : Bool := decide (b.length ≤ a.length)

/-- Comparator of the `orderWords` sort for `mostConnectedFirst`:
connections descending with no tie-break. -/
def connDescLe (graph : List (String × List (String × List Intersection)))
    (a b : String) : Bool :=
  decide (countWordConnections graph b ≤ countWordConnections graph a)

/-- Embedding of `selectWords`. -/
def selectWords (words : List String)
    (graph : List (String × List (String × List Intersection)))
    (config : GeneratorParams) : List String :=
  let selected :=
    match config.placementStrategy with
    | .mostConnectedFirst => sortBy (connLenLe graph) words
    | _ => sortBy lenDescLe words
  selected.take (min config.maxWordCount selected.length)

/-- Array element swap (the destructuring swap of the source); out-of-range
indices leave the list unchanged. -/
def listSwap (l : List α) (i j : Nat) : List α :=
  match l.get? i, l.get? j with
  | some a, some b => (l.set i b).set j a
  | _, _ => l

/-- The seeded Fisher-Yates shuffle of `orderWords` for the `random`
strategy; `rng` is the `seededRandom` float stream (values in `[0,1)`). -/
def fisherYates (rng : Int → Q) (seed : Int) (words : List String) :
    List String :=
  (List.range' 1 (words.length - 1)).reverse.foldl
    (fun l (i : Nat) =>
      let j := Int.toNat (Q.floorQ (rng (seed + (i : Int)) * Q.ofInt ((i : Int) + 1)))
      listSwap l i j)
    words

/-- Embedding of `orderWords`, including the adjacent-swap perturbation
applied for positive seeds on the non-random strategies. -/
def orderWords (rng : Int → Q) (words : List String)
    (graph : List (String × List (String × List Intersection)))
    (strategy : Strategy) (seed : Int) : List String :=
  let ordered :=
    match strategy with
    | .longestFirst => sortBy lenDescLe words
    | .random => fisherYates rng seed words
    | .mostConnectedFirst => sortBy (connDescLe graph) words
  if 0 < seed ∧ strategy ≠ .random then
    (List.range (ordered.length - 1)).foldl
      (fun l (i : Nat) =>
        if Q.blt ⟨7, 10⟩ (rng (seed * 100 + (i : Int))) then listSwap l i (i + 1)
        else l)
      ordered
  else ordered

/-- Comparator of the candidate sort inside the recursive placement:
placement score descending. -/
def candScoreDescLe (a b : PlacementCandidate) : Bool := Q.ble b.score a.score

/-- Embedding of `placeWordsRecursively`: score and sort the valid
placements of the next word, then try the top `maxPlacementCandidates` in
order, recursing on the first that leads to a full placement. -/
def placeWordsRecursively
    (graph : List (String × List (String × List Intersection)))
    (config : GeneratorParams) : List String → Grid → Option Grid
  | [], grid => some grid
  | word :: rest, grid =>
    let candidates := findValidPlacements word grid graph
    let scoredCandidates := candidates.map fun c =>
      { c with
        score := scorePlacementCandidate c.word c.row c.col c.direction grid
          c.intersections }
    let sorted := sortBy candScoreDescLe scoredCandidates
    let toTry := sorted.take config.maxPlacementCandidates
    toTry.findSome? fun candidate =>
      match placeWord grid candidate.word candidate.row candidate.col
          candidate.direction with
      | .error _ => none
      | .ok newGrid => placeWordsRecursively graph config rest newGrid

/-- Embedding of `tryGenerateGrid`. -/
def tryGenerateGrid (rng : Int → Q) (words : List String)
    (graph : List (String × List (String × List Intersection)))
    (config : GeneratorParams) (seed : Int) : Option Grid :=
  placeWordsRecursively graph config
    (orderWords rng words graph config.placementStrategy seed) createGrid

/-- The attempt loop of `generateGridCandidates` with its early break once
`candidatesToGenerate` grids have been collected. -/
def genCandidatesLoop (rng : Int → Q) (words : List String)
    (graph : List (String × List (String × List Intersection)))
    (config : GeneratorParams) : List Nat → List Grid → List Grid
  | [], results => results
  | attempt :: rest, results =>
    let results2 :=
      match tryGenerateGrid rng words graph config (attempt : Int) with
      | some grid => if isGridConnected grid then results ++ [grid] else results
      | none => results
    if config.candidatesToGenerate ≤ results2.length then results2
    else genCandidatesLoop rng words graph config rest results2

/-- Embedding of `generateGridCandidates`. -/
def generateGridCandidates (rng : Int → Q) (words : List String)
    (graph : List (String × List (String × List Intersection)))
    (config : GeneratorParams) : List Grid :=
  genCandidatesLoop rng words graph config
    (List.range (config.candidatesToGenerate * 2)) []

/-- Embedding of the `Puzzle` record. -/
structure Puzzle where
  id : String
  letters : List Char
  words : List PlacedWord
  bonusWords : List String
  grid : Grid
deriving DecidableEq, Repr

/-- One entry of `allCandidates`. -/
structure ScoredCandidate where
  puzzle : Puzzle
  metrics : PuzzleMetrics
deriving DecidableEq, Repr

/-- Embedding of the `GeneratorResult` union type. -/
inductive GeneratorResult
  | failure (error : String)
  | success (puzzle : Puzzle) (metrics : PuzzleMetrics)
      (allCandidates : List ScoredCandidate)
deriving DecidableEq, Repr

/-- The candidate-packaging step of `generatePuzzle` (normalize, score,
compute metrics, assemble the `Puzzle`); the id of the `k`-th packaged
candidate is the value of the `k`-th `generateId()` call, i.e. `ids k`. -/
def packageCandidate (ids : Nat → String) (letters : List Char)
    (validWords : List String) (config : GeneratorParams) (p : Nat × Grid) :
    ScoredCandidate :=
  let normalizedGrid := normalizeGrid p.2
  let score := scoreGrid normalizedGrid
    ⟨config.compactnessWeight, config.densityWeight,
      config.intersectionWeight, config.symmetryWeight⟩
  let metrics0 := calculateMetrics normalizedGrid
  let metrics := { metrics0 with overallScore := score }
  { puzzle :=
      { id := ids p.1
        letters := letters.map Char.toUpper
        words := normalizedGrid.placedWords
        bonusWords := validWords.filter fun w =>
          ¬ normalizedGrid.placedWords.any fun pw => pw.word = w
        grid := normalizedGrid }
    metrics := metrics }

/-- Comparator of the final ranking: overall score descending. -/
def scoredLe (a b : ScoredCandidate) : Bool :=
  Q.ble b.metrics.overallScore a.metrics.overallScore

/-- The scoring / ranking / packaging tail of `generatePuzzle` (steps 5 and
6 of the source): package every grid candidate, sort by overall score
descending, return the best plus the truncated candidate list.  The list is
non-empty on every call from `generatePuzzle`; the empty case repeats the
no-layout failure. -/
def assembleResult (ids : Nat → String) (letters : List Char)
    (validWords : List String) (config : GeneratorParams)
    (candidates : List Grid) : GeneratorResult :=
  let scored :=
    candidates.enum.map (packageCandidate ids letters validWords config)
  let sorted := sortBy scoredLe scored
  match sorted with
  | [] => .failure "Could not generate any valid grid layouts"
  | top :: _ =>
    .success top.puzzle top.metrics (sorted.take config.candidatesToGenerate)

/-- Embedding of `generatePuzzle`.  `rng` is the `seededRandom` float
stream and `ids` the per-call `generateId()` stream (`Date.now()` plus
`Math.random()`, hence different across calls). -/
def generatePuzzle (rng : Int → Q) (ids : Nat → String) (letters : List Char)
    (dictionary : List String) (config : GeneratorParams) : GeneratorResult :=
  let validWords :=
    findValidWords letters dictionary config.minWordLength config.maxWordLength
  if validWords.length < config.minWordCount then
    .failure ("Not enough valid words. Found " ++ toString validWords.length ++
      ", need at least " ++ toString config.minWordCount)
  else
    let graph := buildIntersectionGraph validWords
    let selectedWords := selectWords validWords graph config
    let candidates := generateGridCandidates rng selectedWords graph config
    if candidates.length = 0 then
      .failure "Could not generate any valid grid layouts"
    else
      assembleResult ids letters validWords config candidates

/-! ### usePuzzleHash (src/unnamed/part_009): canonical grid hash -/

/-- The normalized per-cell strings of `hashGrid` before sorting. -/
def canonicalCellStrings (grid : Grid) : List String :=
  grid.cells.map fun p =>
    toString (p.1.1 - grid.bounds.minRow) ++ "," ++
      toString (p.1.2 - grid.bounds.minCol) ++ ":" ++ String.mk [p.2]

/-- The canonical string hashed by `hashGrid`: the normalized cell strings
sorted and joined by a bar.  Two grids collide under `hashGrid` exactly when
they agree on this string (djb2 is then applied to equal inputs). -/
def canonicalGridString (grid : Grid) : String :=
  String.intercalate "|" (sortBy strLe (canonicalCellStrings grid))

/-- The candidate list of a result (empty for failures). -/
def resultCandidates : GeneratorResult → List ScoredCandidate
  | .failure _ => []
  | .success _ _ allCandidates => allCandidates

/-- Strip the externally generated id from a puzzle. -/
def stripPuzzleId (p : Puzzle) : Puzzle :=
  { p with id := "" }

/-- Strip the externally generated id from a scored candidate. -/
def stripCandidateId (sc : ScoredCandidate) : ScoredCandidate :=
  { sc with puzzle := stripPuzzleId sc.puzzle }

/-- Strip every externally generated puzzle id from a result. -/
def stripResultIds : GeneratorResult → GeneratorResult
  | .failure e => .failure e
  | .success puzzle metrics allCandidates =>
    .success (stripPuzzleId puzzle) metrics (allCandidates.map stripCandidateId)

/-! ### Validator rules, stated cell-wise (section 4.E of the spec) -/

/-- A proposed cell is an intersection cell: the grid already holds the same
letter there. -/
def isIntersectionCell (grid : Grid) (cell : WordCell) : Bool :=
  decide (getCell grid cell.r cell.c = some cell.letter)

/-- Both perpendicular neighbours of a proposed cell are empty. -/
def perpendicularEmpty (grid : Grid) (direction : Direction)
    (cell : WordCell) : Bool :=
  match direction with
  | .horizontal =>
    decide (getCell grid (cell.r - 1) cell.c = none) &&
      decide (getCell grid (cell.r + 1) cell.c = none)
  | .vertical =>
    decide (getCell grid cell.r (cell.c - 1) = none) &&
      decide (getCell grid cell.r (cell.c + 1) = none)

/-- Rule R1 (letter agreement) over all cells of the proposed placement. -/
def ruleOneHolds (word : String) (row col : Int) (direction : Direction)
    (grid : Grid) : Bool :=
  (getWordCells word row col direction).all fun cell =>
    decide (getCell grid cell.r cell.c = none ∨
      getCell grid cell.r cell.c = some cell.letter)

/-- Rule R2 (no parallel adjacency) over all cells of the proposed
placement. -/
def ruleTwoHolds (word : String) (row col : Int) (direction : Direction)
    (grid : Grid) : Bool :=
  (getWordCells word row col direction).all fun cell =>
    isIntersectionCell grid cell || perpendicularEmpty grid direction cell

/-- Rule R3: the cell immediately before the word is empty. -/
def ruleThreeHolds (_word : String) (row col : Int) (direction : Direction)
    (grid : Grid) : Bool :=
  match direction with
  | .horizontal => decide (getCell grid row (col - 1) = none)
  | .vertical => decide (getCell grid (row - 1) col = none)

/-- Rule R4: the cell immediately after the word is empty. -/
def ruleFourHolds (word : String) (row col : Int) (direction : Direction)
    (grid : Grid) : Bool :=
  match direction with
  | .horizontal => decide (getCell grid row (col + word.length) = none)
  | .vertical => decide (getCell grid (row + word.length) col = none)

/-- Rule R5: a non-first placement has at least one intersection cell. -/
def ruleFiveHolds (word : String) (row col : Int) (direction : Direction)
    (grid : Grid) : Bool :=
  decide (grid.placedWords.length = 0) ||
    decide (0 < (getWordCells word row col direction).countP
      (isIntersectionCell grid))

/-! ### scripts/generate-curated-wordlist.cjs: percentile normalisation -/

/-- Round a number to three decimal places, as
`Math.round(x * 1000) / 1000`. -/
def roundTo3 (x : Q) : Q := Q.div ⟨Q.roundQ (x * 1000), 1⟩ 1000

/-- Comparator of the percentile sort: raw score ascending. -/
def rawAscLe (rawScores : String → Q) (a b : String) : Bool :=
  Q.ble (rawScores a) (rawScores b)

/-- Embedding of `normalizeToPercentiles`: for each length bucket, sort by
raw score ascending and assign `i / (n - 1)` (or `0.5` for a singleton
bucket) rounded to three decimals; the returned association pairs are the
assignments made to the `percentiles` object. -/
def normalizeToPercentiles (wordsByLength : List (Nat × List String))
    (rawScores : String → Q) : List (String × Q) :=
  wordsByLength.flatMap fun bucket =>
    if bucket.2.isEmpty then []
    else
      let sorted := sortBy (rawAscLe rawScores) bucket.2
      sorted.enum.map fun p =>
        (p.2,
          roundTo3
            (if 1 < sorted.length then
              Q.div ⟨(p.1 : Int), 1⟩ (Q.sub ⟨(sorted.length : Int), 1⟩ ⟨1, 1⟩)
            else ⟨1, 2⟩))

/-! ### Anagram dedup (utils section of src/puzzleGenerator) -/

/-- Embedding of `getLetterSignature`: the uppercased letters in code-point
order. -/
def getLetterSignature (word : String) : String :=
  String.mk (sortBy (fun a b => decide (a ≤ b)) (word.toList.map Char.toUpper))

/-- A word object with a fun score (the object form accepted by
`deduplicateWordsByLetters`; the plain-string form is not exercised by the
curation pipeline). -/
structure WordEntry where
  word : String
  funScore : Q
deriving DecidableEq, Repr

/-- The stats triple of `deduplicateWordsByLetters`. -/
structure DedupStats where
  original : Nat
  filtered : Nat
  kept : Nat
deriving DecidableEq, Repr

/-- The result record of `deduplicateWordsByLetters`. -/
structure DedupResult where
  filteredWords : List WordEntry
  stats : DedupStats
deriving DecidableEq, Repr

/-- JS map-of-groups insertion: append the entry to the group of its
signature, creating the group at the end on first use. -/
def addToGroup : List (String × List WordEntry) → String → WordEntry →
    List (String × List WordEntry)
  | [], sig, e => [(sig, [e])]
  | g :: gs, sig, e =>
    if g.1 = sig then (g.1, g.2 ++ [e]) :: gs else g :: addToGroup gs sig e

/-- The grouping loop of `deduplicateWordsByLetters`; entries with a falsy
(empty) word are skipped. -/
def groupBySignature (words : List WordEntry) :
    List (String × List WordEntry) :=
  words.foldl
    (fun gs e =>
      if e.word = "" then gs else addToGroup gs (getLetterSignature e.word) e)
    []

/-- The `reduce` of the source: keep the entry with the strictly higher fun
score, preferring the earlier entry on ties. -/
def bestOfGroup (e : WordEntry) (rest : List WordEntry) : WordEntry :=
  rest.foldl
    (fun prev current =>
      if Q.blt prev.funScore current.funScore then current else prev)
    e

/-- The per-group body of the dedup loop: a single-entry group is kept as is,
a larger group is reduced to its best entry (an empty group cannot occur; the
placeholder mirrors JS `undefined`). -/
def pickBest : List WordEntry → WordEntry
  | [] => ⟨"", ⟨0, 1⟩⟩
  | e :: rest => if rest.isEmpty then e else bestOfGroup e rest

/-- Embedding of `deduplicateWordsByLetters`. -/
def deduplicateWordsByLetters (words : List WordEntry) : DedupResult :=
  if words.isEmpty then ⟨[], ⟨0, 0, 0⟩⟩
  else
    let groups := groupBySignature words
    let filteredWords := groups.map fun g => pickBest g.2
    ⟨filteredWords,
      ⟨words.length, words.length - filteredWords.length, filteredWords.length⟩⟩

/-! ### Concrete inputs used by counterexamples and witnesses -/

/-- A zero float stream for the seeded PRNG (any fixed stream works for the
runs below: they never consult it). -/
def rng0 : Int → Q := fun _ => ⟨0, 1⟩

/-- An id stream of one `generatePuzzle` call. -/
def idsA : Nat → String := fun _ => "a"

/-- The id stream of a second call at a different wall-clock time. -/
def idsB : Nat → String := fun _ => "b"

/-- Letters of the tiny deterministic run. -/
def exLetters : List Char := ['A', 'B']

/-- Dictionary of the tiny deterministic run. -/
def exDictionary : List String := ["AB"]

/-- The curation example of the spec: TOP/POT/OPT are anagrams, CAT stands
alone; fun scores 0.8, 0.6, 0.9, 0.7. -/
def exDedupWords : List WordEntry :=
  [⟨"TOP", ⟨8, 10⟩⟩, ⟨"POT", ⟨6, 10⟩⟩, ⟨"OPT", ⟨9, 10⟩⟩, ⟨"CAT", ⟨7, 10⟩⟩]

/-- First-match lookup in an association list of groups, mirroring
`Map.prototype.get`. -/
def grpLookup : List (String × List WordEntry) → String → List WordEntry
  | [], _ => []
  | g :: gs, s => if g.1 = s then g.2 else grpLookup gs s

/-- Params of the tiny run returning one candidate. -/
def exConfigOne : GeneratorParams :=
  { DEFAULT_PARAMS with
    minWordLength := 2, minWordCount := 1, candidatesToGenerate := 1 }

/-- Params of the tiny run returning two candidates. -/
def exConfigTwo : GeneratorParams :=
  { DEFAULT_PARAMS with
    minWordLength := 2, minWordCount := 1, candidatesToGenerate := 2 }

/-- A grid with an occupied perpendicular neighbour of the first proposed
cell of `AB` at the origin and a conflicting letter on its second cell. -/
def gridRuleOrder : Grid :=
  ⟨[((-1, 0), 'X'), ((0, 1), 'X')], [], ⟨-1, 0, 0, 1⟩⟩

/-- Word list of the longest-word-pinning run. -/
def wordsPin : List String := ["AAA", "AA", "ABCD"]

/-- Intersection graph of the longest-word-pinning run. -/
def graphPin : List (String × List (String × List Intersection)) :=
  buildIntersectionGraph wordsPin

/-- Params of the longest-word-pinning run: defaults (so
`mustIncludeLongestWord = true`) with the most-connected-first strategy. -/
def configPin : GeneratorParams :=
  { DEFAULT_PARAMS with placementStrategy := .mostConnectedFirst }

/-! ## Lemma library -/

theorem insertLe_perm (le : α → α → Bool) (x : α) (l : List α) :
    (insertLe le x l).Perm (x :: l) := by
  induction l with
  | nil => simp [insertLe]
  | cons y ys ih =>
    simp only [insertLe]
    split
    · exact .refl _
    · exact (ih.cons y).trans (List.Perm.swap x y ys)

theorem sortBy_perm (le : α → α → Bool) (l : List α) :
    (sortBy le l).Perm l := by
  induction l with
  | nil => exact .refl _
  | cons x xs ih => exact (insertLe_perm le x (sortBy le xs)).trans (ih.cons x)

theorem mem_sortBy {le : α → α → Bool} {l : List α} {a : α} :
    a ∈ sortBy le l ↔ a ∈ l :=
  (sortBy_perm le l).mem_iff

theorem sortBy_nodup {le : α → α → Bool} {l : List α} (h : l.Nodup) :
    (sortBy le l).Nodup :=
  (sortBy_perm le l).nodup_iff.mpr h

theorem sortBy_length (le : α → α → Bool) (l : List α) :
    (sortBy le l).length = l.length :=
  (sortBy_perm le l).length_eq

theorem mem_insertLe {le : α → α → Bool} {l : List α} {a x : α} :
    a ∈ insertLe le x l ↔ a = x ∨ a ∈ l := by
  rw [(insertLe_perm le x l).mem_iff, List.mem_cons]

theorem insertLe_pairwise {le : α → α → Bool}
    (total : ∀ a b, le a b = true ∨ le b a = true)
    (htrans : ∀ a b c, le a b = true → le b c = true → le a c = true)
    (x : α) {l : List α} (h : l.Pairwise fun a b => le a b = true) :
    (insertLe le x l).Pairwise (fun a b => le a b = true) := by
  induction l with
  | nil => simp [insertLe]
  | cons y ys ih =>
    rw [List.pairwise_cons] at h
    simp only [insertLe]
    split
    · rename_i hxy
      refine List.Pairwise.cons ?_ (List.pairwise_cons.mpr h)
      intro b hb
      rcases List.mem_cons.mp hb with rfl | hb
      · exact hxy
      · exact htrans x y b hxy (h.1 b hb)
    · rename_i hxy
      have hyx : le y x = true := by
        rcases total x y with h1 | h1
        · exact absurd h1 hxy
        · exact h1
      refine List.Pairwise.cons ?_ (ih h.2)
      intro b hb
      rcases mem_insertLe.mp hb with rfl | hb
      · exact hyx
      · exact h.1 b hb

theorem sortBy_pairwise {le : α → α → Bool}
    (total : ∀ a b, le a b = true ∨ le b a = true)
    (htrans : ∀ a b c, le a b = true → le b c = true → le a c = true)
    (l : List α) :
    (sortBy le l).Pairwise (fun a b => le a b = true) := by
  induction l with
  | nil => simp [sortBy]
  | cons x xs ih => exact insertLe_pairwise total htrans x ih

theorem insertLe_map {le : α → α → Bool} {le2 : β → β → Bool} (f : α → β)
    (hcomm : ∀ a b, le a b = le2 (f a) (f b)) (x : α) (l : List α) :
    (insertLe le x l).map f = insertLe le2 (f x) (l.map f) := by
  induction l with
  | nil => simp [insertLe]
  | cons y ys ih =>
    simp only [insertLe, List.map_cons, ← hcomm]
    split <;> simp_all [insertLe]

theorem sortBy_map {le : α → α → Bool} {le2 : β → β → Bool} (f : α → β)
    (hcomm : ∀ a b, le a b = le2 (f a) (f b)) (l : List α) :
    (sortBy le l).map f = sortBy le2 (l.map f) := by
  induction l with
  | nil => simp [sortBy]
  | cons x xs ih =>
    simp only [sortBy, List.map_cons, insertLe_map f hcomm, ih]

theorem pairwise_getLast {R : α → α → Prop} :
    ∀ (l : List α) (hne : l ≠ []), l.Pairwise R → ∀ a ∈ l,
      a = l.getLast hne ∨ R a (l.getLast hne) := by
  intro l
  induction l with
  | nil => intro hne; exact absurd rfl hne
  | cons y ys ih =>
    intro hne hpw a ha
    rw [List.pairwise_cons] at hpw
    match ys, ha with
    | [], ha =>
      left
      simpa [List.getLast] using List.mem_singleton.mp ha
    | z :: zs, ha =>
      rw [List.getLast_cons (by simp)]
      rcases List.mem_cons.mp ha with rfl | ha
      · right
        exact hpw.1 _ (List.getLast_mem _)
      · exact ih (by simp) hpw.2 a ha

/-! ### Q transfer lemmas -/

theorem Q.toRat_ofInt (n : Int) : (Q.ofInt n).toRat = (n : ℚ) := by
  simp [Q.ofInt, Q.toRat]

theorem Q.toRat_ofNat (n : Nat) : (OfNat.ofNat n : Q).toRat = (n : ℚ) := by
  show Q.toRat ⟨(n : Int), 1⟩ = (n : ℚ)
  unfold Q.toRat
  norm_num

theorem Q.toRat_add (a b : Q) (ha : (a.den : ℚ) ≠ 0) (hb : (b.den : ℚ) ≠ 0) :
    (a + b).toRat = a.toRat + b.toRat := by
  show (Q.add a b).toRat = _
  unfold Q.add Q.toRat
  push_cast
  field_simp

theorem Q.toRat_sub (a b : Q) (ha : (a.den : ℚ) ≠ 0) (hb : (b.den : ℚ) ≠ 0) :
    (a - b).toRat = a.toRat - b.toRat := by
  show (Q.sub a b).toRat = _
  unfold Q.sub Q.toRat
  push_cast
  field_simp
  ring

theorem Q.toRat_mul (a b : Q) :
    (a * b).toRat = a.toRat * b.toRat := by
  show (Q.mul a b).toRat = _
  unfold Q.mul Q.toRat
  push_cast
  rw [div_mul_div_comm]

theorem Q.toRat_div (a b : Q) :
    (Q.div a b).toRat = a.toRat / b.toRat := by
  unfold Q.div Q.toRat
  push_cast
  rw [div_eq_mul_inv ((a.num : ℚ) / (a.den : ℚ)), inv_div, div_mul_div_comm]

theorem Q.ble_iff {a b : Q} (ha : 0 < a.den) (hb : 0 < b.den) :
    Q.ble a b = true ↔ a.toRat ≤ b.toRat := by
  have ha2 : (0 : ℚ) < (a.den : ℚ) := by exact_mod_cast ha
  have hb2 : (0 : ℚ) < (b.den : ℚ) := by exact_mod_cast hb
  unfold Q.ble Q.toRat
  rw [decide_eq_true_iff, div_le_div_iff₀ ha2 hb2]
  constructor
  · intro h
    exact_mod_cast h
  · intro h
    exact_mod_cast h

theorem Q.blt_iff {a b : Q} (ha : 0 < a.den) (hb : 0 < b.den) :
    Q.blt a b = true ↔ a.toRat < b.toRat := by
  have ha2 : (0 : ℚ) < (a.den : ℚ) := by exact_mod_cast ha
  have hb2 : (0 : ℚ) < (b.den : ℚ) := by exact_mod_cast hb
  unfold Q.blt Q.toRat
  rw [decide_eq_true_iff, div_lt_div_iff₀ ha2 hb2]
  constructor
  · intro h
    exact_mod_cast h
  · intro h
    exact_mod_cast h

theorem Q.floorQ_eq {q : Q} (hd : 0 < q.den) : Q.floorQ q = ⌊q.toRat⌋ := by
  unfold Q.floorQ Q.toRat
  have h1 : q.den = (q.den.toNat : Int) := (Int.toNat_of_nonneg hd.le).symm
  have h2 : ((q.den : ℚ)) = ((q.den.toNat : ℕ) : ℚ) := by
    rw [h1]
    push_cast
    rfl
  rw [h2, Rat.floor_intCast_div_natCast, Int.fdiv_eq_ediv _ hd.le,
    Int.toNat_of_nonneg hd.le]

/-! ### Code-point order lemmas -/

theorem chListLe_total : ∀ (as bs : List Char),
    chListLe as bs = true ∨ chListLe bs as = true := by
  intro as
  induction as with
  | nil => intro bs; left; simp [chListLe]
  | cons a as ih =>
    intro bs
    cases bs with
    | nil => right; simp [chListLe]
    | cons b bs =>
      by_cases hab : a = b
      · subst hab
        simp only [chListLe, if_pos rfl]
        exact ih bs
      · have hba : ¬ b = a := fun h => hab h.symm
        simp only [chListLe, if_neg hab, if_neg hba]
        rcases lt_or_gt_of_ne hab with h | h
        · left; exact decide_eq_true h
        · right; exact decide_eq_true h

theorem chListLe_trans : ∀ (as bs cs : List Char),
    chListLe as bs = true → chListLe bs cs = true → chListLe as cs = true := by
  intro as
  induction as with
  | nil => intro bs cs _ _; simp [chListLe]
  | cons a as ih =>
    intro bs cs h1 h2
    cases bs with
    | nil => simp [chListLe] at h1
    | cons b bs =>
      cases cs with
      | nil => simp [chListLe] at h2
      | cons c cs =>
        simp only [chListLe] at h1 h2 ⊢
        by_cases hab : a = b <;> by_cases hbc : b = c
        · subst hab
          subst hbc
          rw [if_pos rfl] at h1 h2 ⊢
          exact ih bs cs h1 h2
        · subst hab
          rw [if_pos rfl] at h1
          rw [if_neg hbc] at h2
          have hlt : a < c := of_decide_eq_true h2
          rw [if_neg (ne_of_lt hlt)]
          exact decide_eq_true hlt
        · subst hbc
          rw [if_neg hab] at h1
          have hlt : a < b := of_decide_eq_true h1
          rw [if_neg (ne_of_lt hlt)]
          exact decide_eq_true hlt
        · rw [if_neg hab] at h1
          rw [if_neg hbc] at h2
          have hlt : a < c :=
            lt_trans (of_decide_eq_true h1) (of_decide_eq_true h2)
          rw [if_neg (ne_of_lt hlt)]
          exact decide_eq_true hlt

theorem strLe_total (a b : String) : strLe a b = true ∨ strLe b a = true :=
  chListLe_total a.toList b.toList

theorem strLe_trans (a b c : String) :
    strLe a b = true → strLe b c = true → strLe a c = true :=
  chListLe_trans a.toList b.toList c.toList

theorem wordLenAlphaLe_total (a b : String) :
    wordLenAlphaLe a b = true ∨ wordLenAlphaLe b a = true := by
  unfold wordLenAlphaLe
  by_cases h : a.length = b.length
  · rw [if_pos h, if_pos h.symm]
    exact strLe_total a b
  · have h2 : ¬ b.length = a.length := fun hh => h hh.symm
    rw [if_neg h, if_neg h2]
    rcases Nat.lt_or_ge b.length a.length with hl | hl
    · left; exact decide_eq_true hl
    · right
      exact decide_eq_true (lt_of_le_of_ne hl h)

theorem wordLenAlphaLe_trans (a b c : String) :
    wordLenAlphaLe a b = true → wordLenAlphaLe b c = true →
      wordLenAlphaLe a c = true := by
  unfold wordLenAlphaLe
  intro h1 h2
  by_cases hab : a.length = b.length <;> by_cases hbc : b.length = c.length
  · rw [if_pos hab] at h1
    rw [if_pos hbc] at h2
    rw [if_pos (hab.trans hbc)]
    exact strLe_trans a b c h1 h2
  · rw [if_neg hbc] at h2
    have hlt : c.length < b.length := of_decide_eq_true h2
    rw [hab] at *
    rw [if_neg (Nat.ne_of_gt hlt)]
    exact decide_eq_true hlt
  · rw [if_neg hab] at h1
    have hlt : b.length < a.length := of_decide_eq_true h1
    rw [hbc] at hlt
    rw [if_neg (Nat.ne_of_gt hlt)]
    exact decide_eq_true hlt
  · rw [if_neg hab] at h1
    rw [if_neg hbc] at h2
    have hlt : c.length < a.length :=
      lt_trans (of_decide_eq_true h2) (of_decide_eq_true h1)
    rw [if_neg (Nat.ne_of_gt hlt)]
    exact decide_eq_true hlt

/-! ### Word finder lemmas -/

theorem strUpper_eq_self {s : String}
    (h : ∀ c ∈ s.toList, c.toUpper = c) : strUpper s = s := by
  unfold strUpper
  have h2 : s.toList.map Char.toUpper = s.toList :=
    (List.map_congr_left h).trans (List.map_id _)
  rw [h2]
  cases s
  rfl

theorem canFormWord_iff (word : String) (letters : List Char) :
    canFormWord word (countLetters letters) = true ↔
      (↑(word.toList.map Char.toUpper) : Multiset Char) ≤
        ↑(letters.map Char.toUpper) := by
  unfold canFormWord countLetters
  rw [List.all_eq_true, Multiset.le_iff_count]
  constructor
  · intro h c
    simp only [Multiset.coe_count]
    by_cases hc : c ∈ word.toList.map Char.toUpper
    · have := h c hc
      simpa using this
    · rw [List.count_eq_zero_of_not_mem hc]
      exact Nat.zero_le _
  · intro h c _
    have := h c
    simp only [Multiset.coe_count] at this
    simpa using this

/-! ## Claims -/

/-- C6: word finder contract.  For every letters array, every dictionary (a
set of words, hence duplicate-free, normalised to uppercase as the external
interface requires) and bounds with `minLength <= maxLength`,
`findValidWords` returns exactly the dictionary entries whose letter
multiset is a sub-multiset of the bag and whose length lies within the
bounds, without duplicates, sorted by length descending and alphabetically
(code-point order) ascending within equal lengths. -/
theorem findValidWords_contract (letters : List Char)
    (dictionary : List String) (minLength maxLength : Nat)
    (_hbounds : minLength ≤ maxLength) (hnd : dictionary.Nodup)
    (hup : ∀ w ∈ dictionary, ∀ c ∈ w.toList, c.toUpper = c) :
    (findValidWords letters dictionary minLength maxLength).Nodup ∧
    (∀ w, w ∈ findValidWords letters dictionary minLength maxLength ↔
      w ∈ dictionary ∧ minLength ≤ w.length ∧ w.length ≤ maxLength ∧
        (↑(w.toList.map Char.toUpper) : Multiset Char) ≤
          ↑(letters.map Char.toUpper)) ∧
    (findValidWords letters dictionary minLength maxLength).Pairwise
      fun a b => b.length < a.length ∨
        (a.length = b.length ∧ strLe a b = true) := by
  have hmap :
      (dictionary.filter fun word =>
        decide (minLength ≤ word.length) && decide (word.length ≤ maxLength) &&
          canFormWord word (countLetters letters)).map strUpper =
      dictionary.filter fun word =>
        decide (minLength ≤ word.length) && decide (word.length ≤ maxLength) &&
          canFormWord word (countLetters letters) := by
    have : ∀ w ∈ dictionary.filter fun word =>
        decide (minLength ≤ word.length) && decide (word.length ≤ maxLength) &&
          canFormWord word (countLetters letters), strUpper w = w := by
      intro w hw
      exact strUpper_eq_self (hup w (List.mem_of_mem_filter hw))
    exact (List.map_congr_left this).trans (List.map_id _)
  have hval : findValidWords letters dictionary minLength maxLength =
      sortBy wordLenAlphaLe
        (dictionary.filter fun word =>
          decide (minLength ≤ word.length) &&
            decide (word.length ≤ maxLength) &&
            canFormWord word (countLetters letters)) := by
    simp only [findValidWords]
    rw [hmap]
  refine ⟨?_, ?_, ?_⟩
  · rw [hval]
    exact sortBy_nodup (hnd.filter _)
  · intro w
    rw [hval, mem_sortBy, List.mem_filter]
    simp only [Bool.and_eq_true, decide_eq_true_eq, canFormWord_iff]
    tauto
  · rw [hval]
    refine (sortBy_pairwise wordLenAlphaLe_total wordLenAlphaLe_trans _).imp ?_
    intro a b hab
    unfold wordLenAlphaLe at hab
    by_cases h : a.length = b.length
    · rw [if_pos h] at hab
      exact Or.inr ⟨h, hab⟩
    · rw [if_neg h] at hab
      exact Or.inl (of_decide_eq_true hab)

/-- The adjacency test performed by `scanCells` is the negation of
`perpendicularEmpty`. -/
theorem perp_any_eq (grid : Grid) (d : Direction) (cell : WordCell) :
    ((match d with
      | Direction.horizontal =>
        [getCell grid (cell.r - 1) cell.c, getCell grid (cell.r + 1) cell.c]
      | Direction.vertical =>
        [getCell grid cell.r (cell.c - 1), getCell grid cell.r (cell.c + 1)]).any
      fun x => x ≠ none) = ! perpendicularEmpty grid d cell := by
  cases d <;> simp [perpendicularEmpty, Bool.not_and, decide_not]

/-- If every cell passes rules R1 and R2, the scan succeeds and counts the
intersection cells. -/
theorem scanCells_eq_ok (grid : Grid) (d : Direction) :
    ∀ (cells : List WordCell) (n : Nat),
      (∀ cell ∈ cells, getCell grid cell.r cell.c = none ∨
        getCell grid cell.r cell.c = some cell.letter) →
      (∀ cell ∈ cells, isIntersectionCell grid cell = true ∨
        perpendicularEmpty grid d cell = true) →
      scanCells grid d cells n =
        .ok (n + cells.countP (isIntersectionCell grid)) := by
  intro cells
  induction cells with
  | nil => intro n _ _; simp [scanCells]
  | cons cell rest ih =>
    intro n h1 h2
    have h1h := h1 cell (List.mem_cons_self cell rest)
    have h2h := h2 cell (List.mem_cons_self cell rest)
    simp only [scanCells]
    rw [if_neg (by rcases h1h with h | h <;> simp [h])]
    rw [if_neg ?hc2]
    case hc2 =>
      rw [perp_any_eq]
      rcases h2h with h | h
      · rw [isIntersectionCell, decide_eq_true_iff] at h
        rintro ⟨_, hni⟩
        exact hni h
      · rw [h]
        rintro ⟨hfalse, _⟩
        simp at hfalse
    rw [ih _ (fun c hc => h1 c (List.mem_cons_of_mem cell hc))
      (fun c hc => h2 c (List.mem_cons_of_mem cell hc))]
    congr 1
    rw [List.countP_cons]
    unfold isIntersectionCell
    by_cases hi : getCell grid cell.r cell.c = some cell.letter
    · rw [if_pos hi]
      simp [hi]
      omega
    · rw [if_neg hi]
      simp [hi]

/-- If the scan succeeds, every cell passes rules R1 and R2 and the returned
count is the number of intersection cells. -/
theorem scanCells_ok_count (grid : Grid) (d : Direction) :
    ∀ (cells : List WordCell) (n m : Nat),
      scanCells grid d cells n = .ok m →
      (∀ cell ∈ cells, getCell grid cell.r cell.c = none ∨
        getCell grid cell.r cell.c = some cell.letter) ∧
      (∀ cell ∈ cells, isIntersectionCell grid cell = true ∨
        perpendicularEmpty grid d cell = true) ∧
      m = n + cells.countP (isIntersectionCell grid) := by
  intro cells
  induction cells with
  | nil =>
    intro n m h
    simp only [scanCells] at h
    cases h
    simp
  | cons cell rest ih =>
    intro n m h
    simp only [scanCells] at h
    by_cases hc1 : getCell grid cell.r cell.c ≠ none ∧
        getCell grid cell.r cell.c ≠ some cell.letter
    · rw [if_pos hc1] at h
      cases h
    rw [if_neg hc1] at h
    by_cases hc2 :
      ((match d with
        | Direction.horizontal =>
          [getCell grid (cell.r - 1) cell.c, getCell grid (cell.r + 1) cell.c]
        | Direction.vertical =>
          [getCell grid cell.r (cell.c - 1), getCell grid cell.r (cell.c + 1)]).any
        fun x => x ≠ none) = true ∧
        ¬ getCell grid cell.r cell.c = some cell.letter
    · rw [if_pos hc2] at h
      cases h
    rw [if_neg hc2] at h
    obtain ⟨hr1, hr2, hcount⟩ := ih _ _ h
    push_neg at hc1
    refine ⟨?_, ?_, ?_⟩
    · intro c hc
      rcases List.mem_cons.mp hc with rfl | hc
      · by_cases hnone : getCell grid c.r c.c = none
        · exact Or.inl hnone
        · exact Or.inr (hc1 hnone)
      · exact hr1 c hc
    · intro c hc
      rcases List.mem_cons.mp hc with rfl | hc
      · by_cases hi : getCell grid c.r c.c = some c.letter
        · exact Or.inl (by rw [isIntersectionCell]; exact decide_eq_true hi)
        · right
          rw [perp_any_eq] at hc2
          have hne : (! perpendicularEmpty grid d c) ≠ true := fun hh => hc2 ⟨hh, hi⟩
          simpa using hne
      · exact hr2 c hc
    · rw [hcount, List.countP_cons]
      unfold isIntersectionCell
      by_cases hi : getCell grid cell.r cell.c = some cell.letter
      · rw [if_pos hi]
        simp [hi]
        omega
      · rw [if_neg hi]
        simp [hi]

/-- Witness for C6 at a concrete input: letters `C A T`, dictionary
`CAT AT DOG ACT`, bounds `2..5`. -/
theorem findValidWords_contract_witness :
    ((2 : Nat) ≤ 5) ∧ (["CAT", "AT", "DOG", "ACT"] : List String).Nodup ∧
    (∀ w ∈ (["CAT", "AT", "DOG", "ACT"] : List String),
      ∀ c ∈ w.toList, c.toUpper = c) ∧
    ((findValidWords ['C', 'A', 'T'] ["CAT", "AT", "DOG", "ACT"] 2 5).Nodup ∧
    (∀ w, w ∈ findValidWords ['C', 'A', 'T'] ["CAT", "AT", "DOG", "ACT"] 2 5 ↔
      w ∈ (["CAT", "AT", "DOG", "ACT"] : List String) ∧ 2 ≤ w.length ∧
        w.length ≤ 5 ∧
        (↑(w.toList.map Char.toUpper) : Multiset Char) ≤
          ↑((['C', 'A', 'T'] : List Char).map Char.toUpper)) ∧
    (findValidWords ['C', 'A', 'T'] ["CAT", "AT", "DOG", "ACT"] 2 5).Pairwise
      fun a b => b.length < a.length ∨
        (a.length = b.length ∧ strLe a b = true)) :=
  ⟨by decide, by decide, by decide,
    findValidWords_contract ['C', 'A', 'T'] ["CAT", "AT", "DOG", "ACT"] 2 5
      (by decide) (by decide) (by decide)⟩

/-- C5 (amended): `validatePlacement` succeeds exactly when the five rules
R1 (letter agreement), R2 (no parallel adjacency), R3 (cell before empty),
R4 (cell after empty) and R5 (at least one intersection cell when a word is
already placed) all hold; the checks run per cell in word order with R1 and
R2 interleaved (for each cell R1 then R2), then R3, R4, R5, and the first
failing check is the reported reason.  The embedding is a pure function of
the grid, which is never modified. -/
theorem validatePlacement_valid_iff_rules (word : String) (row col : Int)
    (d : Direction) (grid : Grid) :
    (validatePlacement word row col d grid).valid =
      (ruleOneHolds word row col d grid && ruleTwoHolds word row col d grid &&
        ruleThreeHolds word row col d grid &&
        ruleFourHolds word row col d grid &&
        ruleFiveHolds word row col d grid) := by
  simp only [validatePlacement, validatePlacementE]
  cases hscan : scanCells grid d (getWordCells word row col d) 0 with
  | error v =>
    have hnot : ¬ (ruleOneHolds word row col d grid = true ∧
        ruleTwoHolds word row col d grid = true) := by
      rintro ⟨h1, h2⟩
      rw [ruleOneHolds, List.all_eq_true] at h1
      rw [ruleTwoHolds, List.all_eq_true] at h2
      have hok := scanCells_eq_ok grid d (getWordCells word row col d) 0
        (fun cell hc => of_decide_eq_true (h1 cell hc))
        (fun cell hc => Bool.or_eq_true_iff.mp (h2 cell hc))
      rw [hscan] at hok
      exact Except.noConfusion hok
    have hfalse : (ruleOneHolds word row col d grid &&
        ruleTwoHolds word row col d grid) = false := by
      cases hA : ruleOneHolds word row col d grid <;>
        cases hB : ruleTwoHolds word row col d grid <;> simp_all
    simp [hfalse]
  | ok m =>
    obtain ⟨hr1, hr2, hm⟩ :=
      scanCells_ok_count grid d (getWordCells word row col d) 0 m hscan
    have h1 : ruleOneHolds word row col d grid = true := by
      rw [ruleOneHolds, List.all_eq_true]
      intro cell hc
      exact decide_eq_true (hr1 cell hc)
    have h2 : ruleTwoHolds word row col d grid = true := by
      rw [ruleTwoHolds, List.all_eq_true]
      intro cell hc
      exact Bool.or_eq_true_iff.mpr (hr2 cell hc)
    rw [h1, h2]
    have hm2 : m = (getWordCells word row col d).countP
        (isIntersectionCell grid) := by omega
    cases d
    case horizontal =>
      dsimp only
      by_cases h3 : getCell grid row (col - 1) = none
      · rw [if_neg (by simpa using h3)]
        by_cases h4 : getCell grid row (col + (word.length : Int)) = none
        · rw [if_neg (by simpa using h4)]
          by_cases h5 : 0 < grid.placedWords.length ∧ m = 0
          · rw [if_pos h5]
            have : ruleFiveHolds word row col .horizontal grid = false := by
              rw [ruleFiveHolds]
              simp only [Bool.or_eq_false_iff, decide_eq_false_iff_not]
              omega
            simp [ruleThreeHolds, ruleFourHolds, h3, h4, this]
          · rw [if_neg h5]
            have : ruleFiveHolds word row col .horizontal grid = true := by
              rw [ruleFiveHolds]
              simp only [Bool.or_eq_true_iff, decide_eq_true_eq]
              omega
            simp [ruleThreeHolds, ruleFourHolds, h3, h4, this]
        · rw [if_pos (by simpa using h4)]
          simp [ruleThreeHolds, ruleFourHolds, h3, h4]
      · rw [if_pos (by simpa using h3)]
        simp [ruleThreeHolds, h3]
    case vertical =>
      dsimp only
      by_cases h3 : getCell grid (row - 1) col = none
      · rw [if_neg (by simpa using h3)]
        by_cases h4 : getCell grid (row + (word.length : Int)) col = none
        · rw [if_neg (by simpa using h4)]
          by_cases h5 : 0 < grid.placedWords.length ∧ m = 0
          · rw [if_pos h5]
            have : ruleFiveHolds word row col .vertical grid = false := by
              rw [ruleFiveHolds]
              simp only [Bool.or_eq_false_iff, decide_eq_false_iff_not]
              omega
            simp [ruleThreeHolds, ruleFourHolds, h3, h4, this]
          · rw [if_neg h5]
            have : ruleFiveHolds word row col .vertical grid = true := by
              rw [ruleFiveHolds]
              simp only [Bool.or_eq_true_iff, decide_eq_true_eq]
              omega
            simp [ruleThreeHolds, ruleFourHolds, h3, h4, this]
        · rw [if_pos (by simpa using h4)]
          simp [ruleThreeHolds, ruleFourHolds, h3, h4]
      · rw [if_pos (by simpa using h3)]
        simp [ruleThreeHolds, h3]

/-- Association-list update/lookup interaction. -/
theorem find_assocSet (l : List ((Int × Int) × Char)) (k k2 : Int × Int)
    (v : Char) :
    ((assocSet l k v).find? fun p => p.1 = k2) =
      if k2 = k then some (k, v) else l.find? fun p => p.1 = k2 := by
  induction l with
  | nil =>
    by_cases h : k2 = k
    · subst h
      simp [assocSet, List.find?]
    · simp only [assocSet]
      rw [if_neg h]
      have : ¬ (k = k2) := fun hh => h hh.symm
      simp [List.find?, this]
  | cons p rest ih =>
    simp only [assocSet]
    by_cases hp : p.1 = k
    · rw [if_pos hp]
      by_cases h : k2 = k
      · subst h
        simp [List.find?]
      · have h2 : ¬ (k = k2) := fun hh => h hh.symm
        have h3 : ¬ (p.1 = k2) := by rw [hp]; exact h2
        simp [List.find?, h, h2, h3]
    · rw [if_neg hp]
      by_cases hq : p.1 = k2
      · have h : ¬ (k2 = k) := by
          intro hh
          exact hp (hq.trans hh)
        rw [List.find?_cons_of_pos _ (by simpa using hq), if_neg h,
          List.find?_cons_of_pos _ (by simpa using hq)]
      · rw [List.find?_cons_of_neg _ (by simpa using hq), ih]
        by_cases h : k2 = k
        · rw [if_pos h, if_pos h]
        · rw [if_neg h, if_neg h,
            List.find?_cons_of_neg _ (by simpa using hq)]

/-- Lookup after a single cell write. -/
theorem getCell_setCell (g : Grid) (r0 c0 : Int) (ch : Char) (r c : Int) :
    getCell (setCell g r0 c0 ch) r c =
      if (r, c) = (r0, c0) then some ch else getCell g r c := by
  unfold getCell setCell
  simp only [find_assocSet]
  by_cases h : (r, c) = (r0, c0)
  · simp [h]
  · simp [h]

/-- Cell writes do not touch the placed-word list. -/
theorem foldl_setCell_placedWords (cs : List WordCell) (g : Grid) :
    ((cs.foldl (fun g2 cell => setCell g2 cell.r cell.c cell.letter)
      g)).placedWords = g.placedWords := by
  induction cs generalizing g with
  | nil => rfl
  | cons cell rest ih => rw [List.foldl_cons, ih]; rfl

/-- Lookup after writing a list of cells with pairwise distinct positions:
a written position holds its letter, all others fall through to the
original grid. -/
theorem getCell_foldl_setCell (cs : List WordCell) (g : Grid) (r c : Int)
    (hnd : (cs.map fun cell => (cell.r, cell.c)).Nodup) :
    getCell (cs.foldl (fun g2 cell => setCell g2 cell.r cell.c cell.letter) g)
        r c =
      match cs.find? fun cell => cell.r = r ∧ cell.c = c with
      | some cell => some cell.letter
      | none => getCell g r c := by
  induction cs generalizing g with
  | nil => rfl
  | cons cell rest ih =>
    rw [List.map_cons, List.nodup_cons] at hnd
    rw [List.foldl_cons, ih _ hnd.2]
    by_cases hhead : cell.r = r ∧ cell.c = c
    · obtain ⟨hr, hc⟩ := hhead
      subst hr; subst hc
      have hrest : rest.find? (fun c2 => c2.r = cell.r ∧ c2.c = cell.c) =
          none := by
        rw [List.find?_eq_none]
        intro x hx hpred
        rw [decide_eq_true_iff] at hpred
        exact hnd.1 (by
          rw [← hpred.1, ← hpred.2]
          exact List.mem_map_of_mem _ hx)
      rw [hrest]
      rw [List.find?_cons_of_pos _ (by simp)]
      rw [getCell_setCell]
      simp
    · rw [List.find?_cons_of_neg _ (by simpa using hhead)]
      cases hfind : rest.find? fun c2 => c2.r = r ∧ c2.c = c with
      | some c2 => rfl
      | none =>
        rw [getCell_setCell]
        rw [if_neg (by
          intro hh
          apply hhead
          have h1 : r = cell.r := congrArg Prod.fst hh
          have h2 : c = cell.c := congrArg Prod.snd hh
          exact ⟨h1.symm, h2.symm⟩)]

/-- The positions of a horizontal word. -/
theorem getWordCells_map_pos_h (word : String) (row col : Int) :
    ((getWordCells word row col .horizontal).map fun cell =>
      (cell.r, cell.c)) =
      (List.range word.length).map fun (i : Nat) => (row, col + (i : Int)) := by
  unfold getWordCells
  rw [List.map_map]
  have hlen : word.length = word.toList.length := rfl
  rw [hlen, ← List.enum_map_fst word.toList, List.map_map]
  rfl

/-- The positions of a vertical word. -/
theorem getWordCells_map_pos_v (word : String) (row col : Int) :
    ((getWordCells word row col .vertical).map fun cell =>
      (cell.r, cell.c)) =
      (List.range word.length).map fun (i : Nat) => (row + (i : Int), col) := by
  unfold getWordCells
  rw [List.map_map]
  have hlen : word.length = word.toList.length := rfl
  rw [hlen, ← List.enum_map_fst word.toList, List.map_map]
  rfl

/-- A straight word occupies pairwise distinct cells. -/
theorem getWordCells_pos_nodup (word : String) (row col : Int)
    (d : Direction) :
    ((getWordCells word row col d).map fun cell => (cell.r, cell.c)).Nodup := by
  cases d
  · rw [getWordCells_map_pos_h]
    refine List.Nodup.map ?_ (List.nodup_range _)
    intro i j h
    have : col + (i : Int) = col + (j : Int) := congrArg Prod.snd h
    omega
  · rw [getWordCells_map_pos_v]
    refine List.Nodup.map ?_ (List.nodup_range _)
    intro i j h
    have : row + (i : Int) = row + (j : Int) := congrArg Prod.fst h
    omega

/-- In a position-duplicate-free cell list, searching for the position of a
member finds that member. -/
theorem find?_pos_self (cs : List WordCell)
    (hnd : (cs.map fun cell => (cell.r, cell.c)).Nodup) (cell : WordCell)
    (hc : cell ∈ cs) :
    cs.find? (fun c2 => c2.r = cell.r ∧ c2.c = cell.c) = some cell := by
  induction cs with
  | nil => cases hc
  | cons head rest ih =>
    rw [List.map_cons, List.nodup_cons] at hnd
    rcases List.mem_cons.mp hc with rfl | hc
    · rw [List.find?_cons_of_pos _ (by simp)]
    · have hne : ¬ (head.r = cell.r ∧ head.c = cell.c) := by
        rintro ⟨h1, h2⟩
        exact hnd.1 (by
          rw [h1, h2]
          exact List.mem_map_of_mem _ hc)
      rw [List.find?_cons_of_neg _ (by simpa using hne), ih hnd.2 hc]

theorem getCell_createGrid (r c : Int) : getCell createGrid r c = none := rfl

/-- On the empty grid every scan succeeds without intersections. -/
theorem scanCells_createGrid (d : Direction) :
    ∀ (cells : List WordCell) (n : Nat),
      scanCells createGrid d cells n = .ok n := by
  intro cells
  induction cells with
  | nil => intro n; rfl
  | cons cell rest ih =>
    intro n
    simp only [scanCells, getCell_createGrid]
    rw [if_neg (by simp)]
    rw [if_neg (by cases d <;> simp [getCell_createGrid])]
    rw [if_neg (by simp)]
    exact ih n

/-- C5 counterexample: on the grid `gridRuleOrder`, placing `AB`
horizontally at the origin violates R1 at its second cell (the grid holds
`X` where `B` would go), yet the validator reports the R2 parallel-adjacency
failure of the first cell: the rules are not evaluated as R1 over all cells
before R2 over all cells, so the first failing rule in that order is not
the one reported. -/
theorem validatePlacement_rule_order_counterexample :
    (validatePlacement "AB" 0 0 .horizontal gridRuleOrder).reason =
      some (.parallelAdjacency 0 0) ∧
    ruleOneHolds "AB" 0 0 .horizontal gridRuleOrder = false ∧
    (validatePlacement "AB" 0 0 .horizontal gridRuleOrder).valid = false := by
  decide

/-- C7: `placeWord` raises exactly when the validator rejects the placement
(the embedding returns an `Except` error exactly when `validatePlacement`
is invalid), and on success the returned grid extends the input by exactly
the cells of the word (its letter on every occupied position, the original
content everywhere else) plus one placed-word record appended at the end.
The embedding is pure, so the input grid is unchanged in every case, and a
failed call produces no partial write. -/
theorem placeWord_raises_iff_and_extends (grid : Grid) (word : String)
    (row col : Int) (d : Direction) :
    ((placeWord grid word row col d).isOk =
      (validatePlacement word row col d grid).valid) ∧
    ∀ g2, placeWord grid word row col d = .ok g2 →
      g2.placedWords = grid.placedWords ++ [⟨word, row, col, d⟩] ∧
      ∀ r c, getCell g2 r c =
        (match (getWordCells word row col d).find? fun cell =>
            cell.r = r ∧ cell.c = c with
        | some cell => some cell.letter
        | none => getCell grid r c) := by
  unfold placeWord validatePlacement
  cases hE : validatePlacementE word row col d grid with
  | error v =>
    refine ⟨rfl, ?_⟩
    intro g2 h
    exact Except.noConfusion h
  | ok n =>
    refine ⟨rfl, ?_⟩
    intro g2 h
    injection h with h
    subst h
    refine ⟨?_, ?_⟩
    · show ((getWordCells word row col d).foldl
        (fun g cell => setCell g cell.r cell.c cell.letter)
        (cloneGrid grid)).placedWords ++ [⟨word, row, col, d⟩] = _
      rw [foldl_setCell_placedWords]
      rfl
    · intro r c
      show getCell ((getWordCells word row col d).foldl
        (fun g cell => setCell g cell.r cell.c cell.letter)
        (cloneGrid grid)) r c = _
      rw [getCell_foldl_setCell _ _ _ _ (getWordCells_pos_nodup word row col d)]
      rfl

/-- Witness for C7: placing `AB` horizontally at the origin of the empty
grid succeeds and produces exactly the two cells of the word and one placed
record. -/
theorem placeWord_raises_iff_and_extends_witness :
    ((placeWord createGrid "AB" 0 0 .horizontal).isOk =
      (validatePlacement "AB" 0 0 .horizontal createGrid).valid) ∧
    ((⟨[((0, 0), 'A'), ((0, 1), 'B')], [⟨"AB", 0, 0, .horizontal⟩],
        ⟨0, 0, 0, 1⟩⟩ : Grid).placedWords =
      createGrid.placedWords ++ [⟨"AB", 0, 0, .horizontal⟩] ∧
    ∀ r c, getCell (⟨[((0, 0), 'A'), ((0, 1), 'B')],
        [⟨"AB", 0, 0, .horizontal⟩], ⟨0, 0, 0, 1⟩⟩ : Grid) r c =
      (match (getWordCells "AB" 0 0 .horizontal).find? fun cell =>
          cell.r = r ∧ cell.c = c with
      | some cell => some cell.letter
      | none => getCell createGrid r c)) :=
  ⟨(placeWord_raises_iff_and_extends createGrid "AB" 0 0 .horizontal).1,
    (placeWord_raises_iff_and_extends createGrid "AB" 0 0 .horizontal).2
      ⟨[((0, 0), 'A'), ((0, 1), 'B')], [⟨"AB", 0, 0, .horizontal⟩],
        ⟨0, 0, 0, 1⟩⟩ (by rfl)⟩

/-- Shape of a successful `placeWord` call, given a validated placement. -/
theorem placeWord_ok_shape (grid : Grid) (word : String) (row col : Int)
    (d : Direction) (n : Nat)
    (hE : validatePlacementE word row col d grid = .ok n) :
    ∃ g2, placeWord grid word row col d = .ok g2 ∧
      g2.placedWords = grid.placedWords ++ [⟨word, row, col, d⟩] ∧
      ∀ r c, getCell g2 r c =
        (match (getWordCells word row col d).find? fun cell =>
            cell.r = r ∧ cell.c = c with
        | some cell => some cell.letter
        | none => getCell grid r c) := by
  refine ⟨_, by unfold placeWord; rw [hE], ?_, ?_⟩
  · show ((getWordCells word row col d).foldl
      (fun g cell => setCell g cell.r cell.c cell.letter)
      (cloneGrid grid)).placedWords ++ [⟨word, row, col, d⟩] = _
    rw [foldl_setCell_placedWords]
    rfl
  · intro r c
    show getCell ((getWordCells word row col d).foldl
      (fun g cell => setCell g cell.r cell.c cell.letter)
      (cloneGrid grid)) r c = _
    rw [getCell_foldl_setCell _ _ _ _ (getWordCells_pos_nodup word row col d)]
    rfl

theorem getWordCells_length (word : String) (row col : Int) (d : Direction) :
    (getWordCells word row col d).length = word.length := by
  cases d <;> simp [getWordCells]

/-- C10: the validator accepts full overlays.  For every non-empty word `w`
and direction, place `w` on the empty grid; validating the very same
placement `(w, row, col, d)` against the resulting one-word grid succeeds —
every cell is an intersection cell — and `placeWord` then appends a
duplicate `PlacedWord` record whose overlap with the first is every cell of
the word (the cell store is unchanged). -/
theorem validate_accepts_full_overlay (word : String) (row col : Int)
    (d : Direction) (hw : word ≠ "") :
    ∃ g1, placeWord createGrid word row col d = .ok g1 ∧
      (validatePlacement word row col d g1).valid = true ∧
      (getWordCells word row col d).countP (isIntersectionCell g1) =
        word.length ∧
      ∃ g2, placeWord g1 word row col d = .ok g2 ∧
        g2.placedWords = [⟨word, row, col, d⟩, ⟨word, row, col, d⟩] ∧
        ∀ r c, getCell g2 r c = getCell g1 r c := by
  have hlen : 0 < word.length := by
    have hne : word.toList ≠ [] := by
      intro hnil
      apply hw
      cases word with
      | mk data =>
        have hdata : data = [] := hnil
        rw [hdata]
    exact List.length_pos.mpr hne
  have hE1 : validatePlacementE word row col d createGrid = .ok 0 := by
    unfold validatePlacementE
    rw [scanCells_createGrid]
    dsimp only
    rw [if_neg (by simp [getCell_createGrid])]
    rw [if_neg (by simp [getCell_createGrid])]
    rw [if_neg (by simp [createGrid])]
  obtain ⟨g1, hp1, hplaced1, hcells1⟩ :=
    placeWord_ok_shape createGrid word row col d 0 hE1
  have hplaced1b : g1.placedWords = [⟨word, row, col, d⟩] := by
    rw [hplaced1]
    rfl
  have hcell : ∀ cell ∈ getWordCells word row col d,
      getCell g1 cell.r cell.c = some cell.letter := by
    intro cell hc
    rw [hcells1 cell.r cell.c,
      find?_pos_self _ (getWordCells_pos_nodup word row col d) cell hc]
  have hinter : ∀ cell ∈ getWordCells word row col d,
      isIntersectionCell g1 cell = true := fun cell hc =>
    decide_eq_true (hcell cell hc)
  have hcount : (getWordCells word row col d).countP (isIntersectionCell g1) =
      word.length := by
    rw [List.countP_eq_length.mpr hinter, getWordCells_length]
  have hoff : ∀ r c,
      ((getWordCells word row col d).find? fun cell =>
        cell.r = r ∧ cell.c = c) = none → getCell g1 r c = none := by
    intro r c hf
    rw [hcells1 r c, hf]
    rfl
  have hE2 : validatePlacementE word row col d g1 =
      .ok ((getWordCells word row col d).countP (isIntersectionCell g1)) := by
    unfold validatePlacementE
    rw [scanCells_eq_ok g1 d _ 0 (fun cell hc => Or.inr (hcell cell hc))
      (fun cell hc => Or.inl (hinter cell hc))]
    have hzero : (0 : Nat) + (getWordCells word row col d).countP
        (isIntersectionCell g1) =
        (getWordCells word row col d).countP (isIntersectionCell g1) :=
      Nat.zero_add _
    cases d
    case horizontal =>
      dsimp only
      have hfb : ((getWordCells word row col .horizontal).find? fun cell =>
          cell.r = row ∧ cell.c = col - 1) = none := by
        rw [List.find?_eq_none]
        intro cell hc hpred
        rw [decide_eq_true_iff] at hpred
        have hpos : (cell.r, cell.c) ∈
            (getWordCells word row col .horizontal).map fun cell =>
              (cell.r, cell.c) := List.mem_map_of_mem _ hc
        rw [getWordCells_map_pos_h] at hpos
        obtain ⟨i, _, hip⟩ := List.mem_map.mp hpos
        have h2 : col + (i : Int) = cell.c := congrArg Prod.snd hip
        rw [hpred.2] at h2
        omega
      have hfa : ((getWordCells word row col .horizontal).find? fun cell =>
          cell.r = row ∧ cell.c = col + (word.length : Int)) = none := by
        rw [List.find?_eq_none]
        intro cell hc hpred
        rw [decide_eq_true_iff] at hpred
        have hpos : (cell.r, cell.c) ∈
            (getWordCells word row col .horizontal).map fun cell =>
              (cell.r, cell.c) := List.mem_map_of_mem _ hc
        rw [getWordCells_map_pos_h] at hpos
        obtain ⟨i, hi, hip⟩ := List.mem_map.mp hpos
        rw [List.mem_range] at hi
        have h2 : col + (i : Int) = cell.c := congrArg Prod.snd hip
        rw [hpred.2] at h2
        omega
      rw [if_neg (by simp [hoff _ _ hfb])]
      rw [if_neg (by simp [hoff _ _ hfa])]
      rw [if_neg (by
        rw [hzero, hcount]
        rintro ⟨_, hz⟩
        omega)]
      rw [hzero]
    case vertical =>
      dsimp only
      have hfb : ((getWordCells word row col .vertical).find? fun cell =>
          cell.r = row - 1 ∧ cell.c = col) = none := by
        rw [List.find?_eq_none]
        intro cell hc hpred
        rw [decide_eq_true_iff] at hpred
        have hpos : (cell.r, cell.c) ∈
            (getWordCells word row col .vertical).map fun cell =>
              (cell.r, cell.c) := List.mem_map_of_mem _ hc
        rw [getWordCells_map_pos_v] at hpos
        obtain ⟨i, _, hip⟩ := List.mem_map.mp hpos
        have h2 : row + (i : Int) = cell.r := congrArg Prod.fst hip
        rw [hpred.1] at h2
        omega
      have hfa : ((getWordCells word row col .vertical).find? fun cell =>
          cell.r = row + (word.length : Int) ∧ cell.c = col) = none := by
        rw [List.find?_eq_none]
        intro cell hc hpred
        rw [decide_eq_true_iff] at hpred
        have hpos : (cell.r, cell.c) ∈
            (getWordCells word row col .vertical).map fun cell =>
              (cell.r, cell.c) := List.mem_map_of_mem _ hc
        rw [getWordCells_map_pos_v] at hpos
        obtain ⟨i, hi, hip⟩ := List.mem_map.mp hpos
        rw [List.mem_range] at hi
        have h2 : row + (i : Int) = cell.r := congrArg Prod.fst hip
        rw [hpred.1] at h2
        omega
      rw [if_neg (by simp [hoff _ _ hfb])]
      rw [if_neg (by simp [hoff _ _ hfa])]
      rw [if_neg (by
        rw [hzero, hcount]
        rintro ⟨_, hz⟩
        omega)]
      rw [hzero]
  obtain ⟨g2, hp2, hplaced2, hcells2⟩ :=
    placeWord_ok_shape g1 word row col d _ hE2
  refine ⟨g1, hp1, ?_, hcount, g2, hp2, ?_, ?_⟩
  · unfold validatePlacement
    rw [hE2]
  · rw [hplaced2, hplaced1b]
    rfl
  · intro r c
    rw [hcells2 r c]
    cases hf : (getWordCells word row col d).find? fun cell =>
        cell.r = r ∧ cell.c = c with
    | some cell =>
      have hc := List.mem_of_find?_eq_some hf
      have hpred := List.find?_some hf
      rw [decide_eq_true_iff] at hpred
      rw [← hpred.1, ← hpred.2]
      exact (hcell cell hc).symm
    | none => rfl

/-- Witness for C10 at the concrete word `AB` placed horizontally at the
origin. -/
theorem validate_accepts_full_overlay_witness :
    ("AB" : String) ≠ "" ∧
    (∃ g1, placeWord createGrid "AB" 0 0 .horizontal = .ok g1 ∧
      (validatePlacement "AB" 0 0 .horizontal g1).valid = true ∧
      (getWordCells "AB" 0 0 .horizontal).countP (isIntersectionCell g1) =
        "AB".length ∧
      ∃ g2, placeWord g1 "AB" 0 0 .horizontal = .ok g2 ∧
        g2.placedWords = [⟨"AB", 0, 0, .horizontal⟩, ⟨"AB", 0, 0, .horizontal⟩] ∧
        ∀ r c, getCell g2 r c = getCell g1 r c) :=
  ⟨by decide, validate_accepts_full_overlay "AB" 0 0 .horizontal (by decide)⟩

/-- C2 counterexample: on the empty grid the intersections component is
`1`, not `0` — `calculateIntersectionScore` returns `1` whenever at most one
word is placed, including the empty grid. -/
theorem calculateIntersectionScore_empty_ne_zero :
    (calculateIntersectionScore createGrid).toRat = 1 ∧
    (calculateIntersectionScore createGrid).toRat ≠ 0 := by
  have h : calculateIntersectionScore createGrid = (1 : Q) := rfl
  rw [h, Q.toRat_ofNat]
  norm_num

/-- C2 (amended): on the empty grid the compactness, density and symmetry
components are `0` and the intersections component is `1`; the overall
score is therefore exactly the intersections weight.  Every component is an
exact rational (the guards of the scorer prevent any division by zero, the
JS NaN source). -/
theorem scoreGrid_empty_components (w : ScoringWeights)
    (h1 : w.compactness.den ≠ 0) (h2 : w.density.den ≠ 0)
    (h3 : w.intersections.den ≠ 0) (h4 : w.symmetry.den ≠ 0) :
    calculateCompactness createGrid = 0 ∧
    calculateDensity createGrid = 0 ∧
    calculateSymmetry createGrid = 0 ∧
    calculateIntersectionScore createGrid = 1 ∧
    (scoreGrid createGrid w).toRat = w.intersections.toRat := by
  refine ⟨rfl, rfl, rfl, rfl, ?_⟩
  have hs : scoreGrid createGrid w =
      (0 : Q) * w.compactness + (0 : Q) * w.density +
        (1 : Q) * w.intersections + (0 : Q) * w.symmetry := rfl
  have dA : ((0 : Q) * w.compactness).den ≠ 0 := by
    show (1 : Int) * w.compactness.den ≠ 0
    simpa using h1
  have dB : ((0 : Q) * w.density).den ≠ 0 := by
    show (1 : Int) * w.density.den ≠ 0
    simpa using h2
  have dI : ((1 : Q) * w.intersections).den ≠ 0 := by
    show (1 : Int) * w.intersections.den ≠ 0
    simpa using h3
  have dS : ((0 : Q) * w.symmetry).den ≠ 0 := by
    show (1 : Int) * w.symmetry.den ≠ 0
    simpa using h4
  have dAB : (((0 : Q) * w.compactness + (0 : Q) * w.density)).den ≠ 0 := by
    show ((0 : Q) * w.compactness).den * ((0 : Q) * w.density).den ≠ 0
    exact mul_ne_zero dA dB
  have dABI : (((0 : Q) * w.compactness + (0 : Q) * w.density +
      (1 : Q) * w.intersections)).den ≠ 0 := by
    show (((0 : Q) * w.compactness + (0 : Q) * w.density)).den *
      ((1 : Q) * w.intersections).den ≠ 0
    exact mul_ne_zero dAB dI
  have cast0 : ∀ x : Int, x ≠ 0 → ((x : ℚ)) ≠ 0 := by
    intro x hx
    exact_mod_cast hx
  rw [hs,
    Q.toRat_add _ _ (cast0 _ dABI) (cast0 _ dS),
    Q.toRat_add _ _ (cast0 _ dAB) (cast0 _ dI),
    Q.toRat_add _ _ (cast0 _ dA) (cast0 _ dB),
    Q.toRat_mul, Q.toRat_mul, Q.toRat_mul, Q.toRat_mul,
    Q.toRat_ofNat, Q.toRat_ofNat]
  push_cast
  ring

/-- The assembly step produces the same result, up to puzzle ids, for any
two id streams. -/
theorem stripResultIds_assembleResult (ids1 ids2 : Nat → String)
    (letters : List Char) (validWords : List String)
    (config : GeneratorParams) (candidates : List Grid) :
    stripResultIds (assembleResult ids1 letters validWords config candidates) =
      stripResultIds
        (assembleResult ids2 letters validWords config candidates) := by
  have hS : (sortBy scoredLe (candidates.enum.map
        (packageCandidate ids1 letters validWords config))).map
        stripCandidateId =
      (sortBy scoredLe (candidates.enum.map
        (packageCandidate ids2 letters validWords config))).map
        stripCandidateId := by
    rw [@sortBy_map _ _ scoredLe scoredLe stripCandidateId (fun _ _ => rfl) _,
      @sortBy_map _ _ scoredLe scoredLe stripCandidateId (fun _ _ => rfl) _]
    congr 1
    rw [List.map_map, List.map_map]
    exact List.map_congr_left fun p _ => rfl
  simp only [assembleResult]
  cases h1 : sortBy scoredLe (candidates.enum.map
      (packageCandidate ids1 letters validWords config)) with
  | nil =>
    cases h2 : sortBy scoredLe (candidates.enum.map
        (packageCandidate ids2 letters validWords config)) with
    | nil => rfl
    | cons b bs =>
      rw [h1, h2] at hS
      exact List.noConfusion hS
  | cons a as =>
    cases h2 : sortBy scoredLe (candidates.enum.map
        (packageCandidate ids2 letters validWords config)) with
    | nil =>
      rw [h1, h2] at hS
      exact List.noConfusion hS
    | cons b bs =>
      rw [h1, h2] at hS
      have hhead : stripCandidateId a = stripCandidateId b :=
        (List.cons.injEq _ _ _ _ ▸ hS).1
      have hm0 := congrArg ScoredCandidate.metrics hhead
      have hm : a.metrics = b.metrics := hm0
      have hp0 := congrArg ScoredCandidate.puzzle hhead
      have hp : stripPuzzleId a.puzzle = stripPuzzleId b.puzzle := hp0
      simp only [stripResultIds]
      rw [List.map_take, List.map_take, hS]
      rw [GeneratorResult.success.injEq]
      exact ⟨hp, hm, rfl⟩

/-- C1 (amended): generation is deterministic up to the puzzle ids.  For a
fixed letters array, dictionary and params, two calls differ at most in the
`generateId()` stream (wall-clock time and `Math.random()`); stripping the
ids makes the results of any two calls identical — puzzles, metrics, and
candidate lists all coincide except for the id fields. -/
theorem generatePuzzle_deterministic_modulo_ids (rng : Int → Q)
    (ids1 ids2 : Nat → String) (letters : List Char)
    (dictionary : List String) (config : GeneratorParams) :
    stripResultIds (generatePuzzle rng ids1 letters dictionary config) =
      stripResultIds (generatePuzzle rng ids2 letters dictionary config) := by
  simp only [generatePuzzle]
  by_cases hlt : (findValidWords letters dictionary config.minWordLength
      config.maxWordLength).length < config.minWordCount
  · rw [if_pos hlt, if_pos hlt]
  · rw [if_neg hlt, if_neg hlt]
    by_cases hz : (generateGridCandidates rng
        (selectWords (findValidWords letters dictionary config.minWordLength
          config.maxWordLength)
          (buildIntersectionGraph (findValidWords letters dictionary
            config.minWordLength config.maxWordLength)) config)
        (buildIntersectionGraph (findValidWords letters dictionary
          config.minWordLength config.maxWordLength)) config).length = 0
    · rw [if_pos hz, if_pos hz]
    · rw [if_neg hz, if_neg hz]
      exact stripResultIds_assembleResult ids1 ids2 letters _ config _

/-- C1 counterexample: with identical letters, dictionary and params, two
calls made at different wall-clock instants (so with different
`generateId()` streams) return different `GeneratorResult`s — the puzzle
ids differ, so the results are not bit-identical. -/
theorem generatePuzzle_not_bit_identical :
    idsA 0 ≠ idsB 0 ∧
    generatePuzzle rng0 idsA exLetters exDictionary exConfigOne ≠
      generatePuzzle rng0 idsB exLetters exDictionary exConfigOne := by
  constructor
  · decide
  · decide

/-- C3 counterexample: a successful `generatePuzzle` call whose returned
candidate list contains two puzzles with identical normalized cell
contents — the canonical cell strings of `hashGrid` coincide — so no
deduplication by the canonical hash happened before sorting and
truncation. -/
theorem generatePuzzle_duplicate_candidates :
    (resultCandidates (generatePuzzle rng0 idsA exLetters exDictionary
      exConfigTwo)).map (fun sc => canonicalGridString sc.puzzle.grid) =
      ["0,0:A|0,1:B", "0,0:A|0,1:B"] := by
  decide

/-- C3 (amended): `generatePuzzle` performs no deduplication.  The
candidate list of a successful call is exactly the packaged candidates of
every generated grid — one entry per grid, duplicates included — sorted by
overall score descending and truncated to `candidatesToGenerate`; removal
of grids with equal canonical cell hashes happens nowhere in the facade
(the canonical hash is computed only by the UI hook `usePuzzleHash`). -/
theorem generatePuzzle_allCandidates_no_dedup (rng : Int → Q)
    (ids : Nat → String) (letters : List Char) (dictionary : List String)
    (config : GeneratorParams) (p : Puzzle) (m : PuzzleMetrics)
    (cands : List ScoredCandidate)
    (h : generatePuzzle rng ids letters dictionary config =
      .success p m cands) :
    cands = (sortBy scoredLe
      ((generateGridCandidates rng
        (selectWords (findValidWords letters dictionary config.minWordLength
          config.maxWordLength)
          (buildIntersectionGraph (findValidWords letters dictionary
            config.minWordLength config.maxWordLength)) config)
        (buildIntersectionGraph (findValidWords letters dictionary
          config.minWordLength config.maxWordLength)) config).enum.map
        (packageCandidate ids letters
          (findValidWords letters dictionary config.minWordLength
            config.maxWordLength) config))).take
      config.candidatesToGenerate ∧
    cands.length ≤ config.candidatesToGenerate := by
  simp only [generatePuzzle] at h
  by_cases hlt : (findValidWords letters dictionary config.minWordLength
      config.maxWordLength).length < config.minWordCount
  · rw [if_pos hlt] at h
    exact GeneratorResult.noConfusion h
  · rw [if_neg hlt] at h
    by_cases hz : (generateGridCandidates rng
        (selectWords (findValidWords letters dictionary config.minWordLength
          config.maxWordLength)
          (buildIntersectionGraph (findValidWords letters dictionary
            config.minWordLength config.maxWordLength)) config)
        (buildIntersectionGraph (findValidWords letters dictionary
          config.minWordLength config.maxWordLength)) config).length = 0
    · rw [if_pos hz] at h
      exact GeneratorResult.noConfusion h
    · rw [if_neg hz] at h
      simp only [assembleResult] at h
      cases hs : sortBy scoredLe ((generateGridCandidates rng
          (selectWords (findValidWords letters dictionary config.minWordLength
            config.maxWordLength)
            (buildIntersectionGraph (findValidWords letters dictionary
              config.minWordLength config.maxWordLength)) config)
          (buildIntersectionGraph (findValidWords letters dictionary
            config.minWordLength config.maxWordLength)) config).enum.map
          (packageCandidate ids letters
            (findValidWords letters dictionary config.minWordLength
              config.maxWordLength) config)) with
      | nil =>
        rw [hs] at h
        exact GeneratorResult.noConfusion h
      | cons top rest =>
        rw [hs] at h
        rw [GeneratorResult.success.injEq] at h
        refine ⟨h.2.2.symm, ?_⟩
        rw [← h.2.2]
        rw [List.length_take]
        exact min_le_left _ _

/-- Witness for C3 (amended): the tiny two-candidate run. -/
theorem generatePuzzle_allCandidates_no_dedup_witness :
    ∃ p m cands,
      generatePuzzle rng0 idsA exLetters exDictionary exConfigTwo =
        .success p m cands ∧
      (cands = (sortBy scoredLe
        ((generateGridCandidates rng0
          (selectWords (findValidWords exLetters exDictionary
            exConfigTwo.minWordLength exConfigTwo.maxWordLength)
            (buildIntersectionGraph (findValidWords exLetters exDictionary
              exConfigTwo.minWordLength exConfigTwo.maxWordLength))
            exConfigTwo)
          (buildIntersectionGraph (findValidWords exLetters exDictionary
            exConfigTwo.minWordLength exConfigTwo.maxWordLength))
          exConfigTwo).enum.map
          (packageCandidate idsA exLetters
            (findValidWords exLetters exDictionary
              exConfigTwo.minWordLength exConfigTwo.maxWordLength)
            exConfigTwo))).take exConfigTwo.candidatesToGenerate ∧
      cands.length ≤ exConfigTwo.candidatesToGenerate) := by
  refine ⟨_, _, _, rfl, ?_⟩
  exact generatePuzzle_allCandidates_no_dedup rng0 idsA exLetters
    exDictionary exConfigTwo _ _ _ rfl

theorem rawAscLe_total (rawScores : String → Q) :
    ∀ a b, rawAscLe rawScores a b = true ∨ rawAscLe rawScores b a = true := by
  intro a b
  unfold rawAscLe Q.ble
  rcases Int.le_total ((rawScores a).num * (rawScores b).den)
    ((rawScores b).num * (rawScores a).den) with h | h
  · left; exact decide_eq_true h
  · right; exact decide_eq_true h

theorem rawAscLe_trans (rawScores : String → Q)
    (hden : ∀ w, 0 < (rawScores w).den) :
    ∀ a b c, rawAscLe rawScores a b = true → rawAscLe rawScores b c = true →
      rawAscLe rawScores a c = true := by
  intro a b c h1 h2
  unfold rawAscLe at h1 h2 ⊢
  rw [Q.ble_iff (hden a) (hden b)] at h1
  rw [Q.ble_iff (hden b) (hden c)] at h2
  rw [Q.ble_iff (hden a) (hden c)]
  exact le_trans h1 h2

theorem half_toRat : (⟨1, 2⟩ : Q).toRat = 1 / 2 := by
  unfold Q.toRat
  norm_num

theorem roundTo3_toRat (x : Q) (hx : 0 < x.den) :
    (roundTo3 x).toRat = ((⌊x.toRat * 1000 + 1 / 2⌋ : ℤ) : ℚ) / 1000 := by
  have hd : 0 < (x * 1000 + (⟨1, 2⟩ : Q)).den := by
    show 0 < x.den * (1 : Int) * 2
    rw [mul_one]
    omega
  have hval : (x * 1000 + (⟨1, 2⟩ : Q)).toRat = x.toRat * 1000 + 1 / 2 := by
    rw [Q.toRat_add, Q.toRat_mul, Q.toRat_ofNat, half_toRat]
    · norm_num
    · show ((x.den * (1 : Int) : Int) : ℚ) ≠ 0
      push_cast
      rw [mul_one]
      exact_mod_cast hx.ne'
    · show (((2 : Int)) : ℚ) ≠ 0
      norm_num
  unfold roundTo3 Q.roundQ
  rw [Q.floorQ_eq hd, hval]
  show Q.toRat ⟨⌊x.toRat * 1000 + 1 / 2⌋ * (1 : Int), (1 : Int) * 1000⟩ =
    ((⌊x.toRat * 1000 + 1 / 2⌋ : ℤ) : ℚ) / 1000
  unfold Q.toRat
  push_cast
  norm_num

theorem floor_round3_mem_unit {y : ℚ} (h0 : 0 ≤ y) (h1 : y ≤ 1) :
    0 ≤ ((⌊y * 1000 + 1 / 2⌋ : ℤ) : ℚ) / 1000 ∧
    ((⌊y * 1000 + 1 / 2⌋ : ℤ) : ℚ) / 1000 ≤ 1 := by
  have hl : (0 : ℤ) ≤ ⌊y * 1000 + 1 / 2⌋ := by
    rw [Int.le_floor]
    push_cast
    linarith
  have hu : ⌊y * 1000 + 1 / 2⌋ ≤ 1000 := by
    have hlt : ⌊y * 1000 + 1 / 2⌋ < 1001 := by
      rw [Int.floor_lt]
      push_cast
      linarith
    omega
  constructor
  · apply div_nonneg _ (by norm_num)
    exact_mod_cast hl
  · rw [div_le_one (by norm_num)]
    exact_mod_cast hu

theorem pctQ_toRat (i n : Nat) :
    (Q.div ⟨(i : Int), 1⟩ (Q.sub ⟨(n : Int), 1⟩ ⟨1, 1⟩)).toRat =
      (i : ℚ) / ((n : ℚ) - 1) := by
  show Q.toRat ⟨(i : Int) * (1 * 1), 1 * ((n : Int) * 1 - 1 * 1)⟩ = _
  unfold Q.toRat
  push_cast
  ring_nf

theorem pctQ_den {n : Nat} (i : Nat) (h : 1 < n) :
    0 < (Q.div ⟨(i : Int), 1⟩ (Q.sub ⟨(n : Int), 1⟩ ⟨1, 1⟩)).den := by
  show 0 < 1 * ((n : Int) * 1 - 1 * 1)
  simp only [one_mul, mul_one]
  omega

/-- C8: percentile normalisation within a length bucket.  Sorting is by raw
fun score ascending; the word at sort position `i` receives
`i / (n - 1)` (or `0.5` for a singleton bucket) rounded to three decimal
places; every resulting fun score lies in `[0, 1]`; and in a bucket with
more than one word, the word at the last sort position has a maximal raw
score and receives exactly `1.0`. -/
theorem percentile_normalization (len : Nat) (bucket : List String)
    (rawScores : String → Q) (hden : ∀ w, 0 < (rawScores w).den) :
    (sortBy (rawAscLe rawScores) bucket).Pairwise
      (fun a b => (rawScores a).toRat ≤ (rawScores b).toRat) ∧
    (∀ i w q,
      (normalizeToPercentiles [(len, bucket)] rawScores).get? i =
        some (w, q) →
      (sortBy (rawAscLe rawScores) bucket).get? i = some w ∧
      q.toRat = ((⌊(if 1 < bucket.length then
          (i : ℚ) / ((bucket.length : ℚ) - 1) else 1 / 2) * 1000 +
          1 / 2⌋ : ℤ) : ℚ) / 1000) ∧
    (∀ p ∈ normalizeToPercentiles [(len, bucket)] rawScores,
      0 ≤ p.2.toRat ∧ p.2.toRat ≤ 1) ∧
    (1 < bucket.length →
      ∃ w q, w ∈ bucket ∧
        (∀ v ∈ bucket, (rawScores v).toRat ≤ (rawScores w).toRat) ∧
        (normalizeToPercentiles [(len, bucket)] rawScores).get?
          (bucket.length - 1) = some (w, q) ∧
        q.toRat = 1) := by
  have hsorted : (sortBy (rawAscLe rawScores) bucket).Pairwise
      (fun a b => (rawScores a).toRat ≤ (rawScores b).toRat) := by
    refine (sortBy_pairwise (rawAscLe_total rawScores)
      (rawAscLe_trans rawScores hden) bucket).imp ?_
    intro a b hab
    rw [rawAscLe, Q.ble_iff (hden a) (hden b)] at hab
    exact hab
  have hlen : (sortBy (rawAscLe rawScores) bucket).length = bucket.length :=
    sortBy_length _ _
  have hR : normalizeToPercentiles [(len, bucket)] rawScores =
      if bucket.isEmpty then []
      else (sortBy (rawAscLe rawScores) bucket).enum.map fun p =>
        (p.2, roundTo3
          (if 1 < (sortBy (rawAscLe rawScores) bucket).length then
            Q.div ⟨(p.1 : Int), 1⟩
              (Q.sub ⟨((sortBy (rawAscLe rawScores) bucket).length : Int), 1⟩
                ⟨1, 1⟩)
          else ⟨1, 2⟩)) := by
    simp [normalizeToPercentiles]
  have hpct : ∀ i : Nat, i < bucket.length →
      (roundTo3 (if 1 < (sortBy (rawAscLe rawScores) bucket).length then
        Q.div ⟨(i : Int), 1⟩
          (Q.sub ⟨((sortBy (rawAscLe rawScores) bucket).length : Int), 1⟩
            ⟨1, 1⟩)
      else ⟨1, 2⟩)).toRat =
      ((⌊(if 1 < bucket.length then
        (i : ℚ) / ((bucket.length : ℚ) - 1) else 1 / 2) * 1000 +
        1 / 2⌋ : ℤ) : ℚ) / 1000 := by
    intro i hi
    rw [hlen]
    by_cases hgt : 1 < bucket.length
    · rw [if_pos hgt, if_pos hgt, roundTo3_toRat _ (pctQ_den i hgt), pctQ_toRat]
    · rw [if_neg hgt, if_neg hgt, roundTo3_toRat _ (by norm_num), half_toRat]
  have hpct_unit : ∀ i : Nat, i < bucket.length →
      0 ≤ (if 1 < bucket.length then
        (i : ℚ) / ((bucket.length : ℚ) - 1) else 1 / 2) ∧
      (if 1 < bucket.length then
        (i : ℚ) / ((bucket.length : ℚ) - 1) else 1 / 2) ≤ 1 := by
    intro i hi
    by_cases hgt : 1 < bucket.length
    · rw [if_pos hgt]
      have hn1 : (0 : ℚ) < (bucket.length : ℚ) - 1 := by
        have : (1 : ℚ) < (bucket.length : ℚ) := by exact_mod_cast hgt
        linarith
      constructor
      · apply div_nonneg _ hn1.le
        positivity
      · rw [div_le_one hn1]
        have : (i : ℚ) + 1 ≤ (bucket.length : ℚ) := by exact_mod_cast hi
        linarith
    · rw [if_neg hgt]
      norm_num
  refine ⟨hsorted, ?_, ?_, ?_⟩
  · intro i w q h
    rw [hR] at h
    by_cases hb : bucket.isEmpty
    · rw [if_pos hb] at h
      exact absurd (List.get?_mem h) (List.not_mem_nil _)
    rw [if_neg hb, List.get?_map, List.get?_enum] at h
    cases hs : (sortBy (rawAscLe rawScores) bucket).get? i with
    | none =>
      rw [hs] at h
      exact Option.noConfusion h
    | some s =>
      rw [hs] at h
      simp only [Option.map_some'] at h
      rw [Option.some.injEq, Prod.mk.injEq] at h
      have hi : i < bucket.length := by
        rw [← hlen]
        exact (List.get?_eq_some.mp hs).1
      refine ⟨by rw [h.1], ?_⟩
      rw [← h.2, hpct i hi]
  · intro p hp
    rw [hR] at hp
    by_cases hb : bucket.isEmpty
    · rw [if_pos hb] at hp
      exact absurd hp (List.not_mem_nil p)
    rw [if_neg hb] at hp
    obtain ⟨pair, hpair, hfp⟩ := List.mem_map.mp hp
    obtain ⟨hi, _⟩ := List.mem_enum hpair
    rw [hlen] at hi
    have hunit := hpct_unit pair.1 hi
    have hval := hpct pair.1 hi
    rw [← hfp]
    show 0 ≤ (roundTo3 _).toRat ∧ (roundTo3 _).toRat ≤ 1
    rw [hval]
    exact floor_round3_mem_unit hunit.1 hunit.2
  · intro hgt
    have hne : sortBy (rawAscLe rawScores) bucket ≠ [] := by
      intro hnil
      rw [hnil] at hlen
      simp at hlen
      omega
    set S := sortBy (rawAscLe rawScores) bucket with hS
    have hmemlast : S.getLast hne ∈ bucket :=
      mem_sortBy.mp (List.getLast_mem hne)
    refine ⟨S.getLast hne,
      roundTo3 (if 1 < S.length then
        Q.div ⟨((bucket.length - 1 : Nat) : Int), 1⟩
          (Q.sub ⟨(S.length : Int), 1⟩ ⟨1, 1⟩)
      else ⟨1, 2⟩), hmemlast, ?_, ?_, ?_⟩
    · intro v hv
      rcases pairwise_getLast S hne hsorted v (mem_sortBy.mpr hv) with heq | hle
      · rw [heq]
      · exact hle
    · rw [hR, if_neg (by
        intro habs
        rw [List.isEmpty_iff] at habs
        rw [habs] at hgt
        simp at hgt)]
      rw [List.get?_map, List.get?_enum]
      have hidx : bucket.length - 1 = S.length - 1 := by rw [hlen]
      have hgetlast : S.get? (bucket.length - 1) = some (S.getLast hne) := by
        rw [hidx, List.getLast_eq_get S hne]
        rw [List.get?_eq_some]
        have hpos : 0 < S.length := by
          rw [hlen]
          omega
        exact ⟨by omega, rfl⟩
      rw [hgetlast]
      rfl
    · have hi : bucket.length - 1 < bucket.length := by omega
      rw [hpct (bucket.length - 1) hi, if_pos hgt]
      have hcast : ((bucket.length - 1 : Nat) : ℚ) = (bucket.length : ℚ) - 1 := by
        have h1 : 1 ≤ bucket.length := by omega
        push_cast [Nat.cast_sub h1]
        ring
      rw [hcast]
      have hn1 : ((bucket.length : ℚ) - 1) ≠ 0 := by
        have : (1 : ℚ) < (bucket.length : ℚ) := by exact_mod_cast hgt
        linarith
      rw [div_self hn1]
      norm_num

/-- Witness for C8: a two-word bucket with distinct raw scores. -/
theorem percentile_normalization_witness :
    (∀ w : String, 0 < ((fun w => if w = "AB" then (⟨0, 1⟩ : Q) else ⟨1, 1⟩) w).den) ∧
    ((sortBy (rawAscLe fun w => if w = "AB" then (⟨0, 1⟩ : Q) else ⟨1, 1⟩)
      ["AB", "CD"]).Pairwise
      (fun a b => ((fun w => if w = "AB" then (⟨0, 1⟩ : Q) else ⟨1, 1⟩) a).toRat ≤
        ((fun w => if w = "AB" then (⟨0, 1⟩ : Q) else ⟨1, 1⟩) b).toRat) ∧
    (∀ i w q,
      (normalizeToPercentiles [(2, ["AB", "CD"])]
        (fun w => if w = "AB" then (⟨0, 1⟩ : Q) else ⟨1, 1⟩)).get? i =
        some (w, q) →
      (sortBy (rawAscLe fun w => if w = "AB" then (⟨0, 1⟩ : Q) else ⟨1, 1⟩)
        ["AB", "CD"]).get? i = some w ∧
      q.toRat = ((⌊(if 1 < (["AB", "CD"] : List String).length then
          (i : ℚ) / (((["AB", "CD"] : List String).length : ℚ) - 1) else 1 / 2) *
          1000 + 1 / 2⌋ : ℤ) : ℚ) / 1000) ∧
    (∀ p ∈ normalizeToPercentiles [(2, ["AB", "CD"])]
        (fun w => if w = "AB" then (⟨0, 1⟩ : Q) else ⟨1, 1⟩),
      0 ≤ p.2.toRat ∧ p.2.toRat ≤ 1) ∧
    (1 < (["AB", "CD"] : List String).length →
      ∃ w q, w ∈ (["AB", "CD"] : List String) ∧
        (∀ v ∈ (["AB", "CD"] : List String),
          ((fun w => if w = "AB" then (⟨0, 1⟩ : Q) else ⟨1, 1⟩) v).toRat ≤
            ((fun w => if w = "AB" then (⟨0, 1⟩ : Q) else ⟨1, 1⟩) w).toRat) ∧
        (normalizeToPercentiles [(2, ["AB", "CD"])]
          (fun w => if w = "AB" then (⟨0, 1⟩ : Q) else ⟨1, 1⟩)).get?
          ((["AB", "CD"] : List String).length - 1) = some (w, q) ∧
        q.toRat = 1)) :=
  ⟨fun w => by by_cases h : w = "AB" <;> simp [h],
    percentile_normalization 2 ["AB", "CD"]
      (fun w => if w = "AB" then (⟨0, 1⟩ : Q) else ⟨1, 1⟩)
      (fun w => by by_cases h : w = "AB" <;> simp [h])⟩

/-- C4: the `mustIncludeLongestWord` parameter is declared (default `true`)
but never consulted by the generator.  With the default parameters and the
most-connected-first strategy, the placement ordering used by attempt `0`
for the valid words `AAA`, `AA`, `ABCD` puts `AAA` (length 3) at index 0,
although `ABCD` (length 4) is the longest valid word: the longest word is
not forced to index 0. -/
theorem orderWords_ignores_longest_word_pin :
    DEFAULT_PARAMS.mustIncludeLongestWord = true ∧
    configPin.mustIncludeLongestWord = true ∧
    orderWords rng0 (selectWords wordsPin graphPin configPin) graphPin
      configPin.placementStrategy 0 = ["AAA", "AA", "ABCD"] ∧
    "ABCD" ∈ wordsPin ∧
    ("AAA" : String).length < ("ABCD" : String).length := by
  decide

/-- Witness for C2 (amended) at the default scoring weights. -/
theorem scoreGrid_empty_components_witness :
    ((⟨4, 10⟩ : Q).den ≠ 0) ∧ ((⟨2, 10⟩ : Q).den ≠ 0) ∧
    ((⟨3, 10⟩ : Q).den ≠ 0) ∧ ((⟨1, 10⟩ : Q).den ≠ 0) ∧
    (calculateCompactness createGrid = 0 ∧
    calculateDensity createGrid = 0 ∧
    calculateSymmetry createGrid = 0 ∧
    calculateIntersectionScore createGrid = 1 ∧
    (scoreGrid createGrid ⟨⟨4, 10⟩, ⟨2, 10⟩, ⟨3, 10⟩, ⟨1, 10⟩⟩).toRat =
      (⟨3, 10⟩ : Q).toRat) :=
  ⟨by decide, by decide, by decide, by decide,
    scoreGrid_empty_components ⟨⟨4, 10⟩, ⟨2, 10⟩, ⟨3, 10⟩, ⟨1, 10⟩⟩
      (by decide) (by decide) (by decide) (by decide)⟩

/-! ### C9: anagram deduplication -/

theorem grpLookup_addToGroup (gs : List (String × List WordEntry))
    (sig : String) (e : WordEntry) (s : String) :
    grpLookup (addToGroup gs sig e) s =
      if s = sig then grpLookup gs s ++ [e] else grpLookup gs s := by
  induction gs with
  | nil =>
    by_cases h : s = sig
    · subst h
      simp [addToGroup, grpLookup]
    · simp [addToGroup, grpLookup, h, Ne.symm h]
  | cons g gs ih =>
    simp only [addToGroup]
    by_cases hg : g.1 = sig
    · rw [if_pos hg]
      by_cases hs : s = sig
      · subst hs
        have hgs : g.1 = s := hg
        simp [grpLookup, hgs]
      · have hgs : g.1 ≠ s := by
          rw [hg]
          exact fun hh => hs hh.symm
        simp [grpLookup, hgs, hs]
    · rw [if_neg hg]
      by_cases hs2 : g.1 = s
      · have hss : s ≠ sig := by
          rw [← hs2]
          exact hg
        simp [grpLookup, hs2, hss]
      · simp [grpLookup, hs2, ih]

theorem grpLookup_foldAdd (ws : List WordEntry)
    (gs : List (String × List WordEntry)) (s : String)
    (hw : ∀ e ∈ ws, e.word ≠ "") :
    grpLookup
        (ws.foldl
          (fun gs e =>
            if e.word = "" then gs
            else addToGroup gs (getLetterSignature e.word) e)
          gs) s =
      grpLookup gs s ++
        ws.filter (fun e => decide (getLetterSignature e.word = s)) := by
  induction ws generalizing gs with
  | nil => simp
  | cons e ws ih =>
    simp only [List.foldl_cons, List.filter_cons]
    have he : e.word ≠ "" := hw e (List.mem_cons_self _ _)
    rw [if_neg he]
    rw [ih (addToGroup gs (getLetterSignature e.word) e)
      (fun x hx => hw x (List.mem_cons_of_mem _ hx))]
    rw [grpLookup_addToGroup]
    by_cases h : s = getLetterSignature e.word
    · rw [if_pos h]
      have h2 : decide (getLetterSignature e.word = s) = true := by
        simp [h.symm]
      rw [h2]
      simp
    · rw [if_neg h]
      have h2 : decide (getLetterSignature e.word = s) = false := by
        simp
        exact fun hh => h hh.symm
      rw [h2]
      simp

theorem grpLookup_groupBySignature (words : List WordEntry)
    (hw : ∀ e ∈ words, e.word ≠ "") (s : String) :
    grpLookup (groupBySignature words) s =
      words.filter (fun e => decide (getLetterSignature e.word = s)) := by
  unfold groupBySignature
  rw [grpLookup_foldAdd words [] s hw]
  simp [grpLookup]

theorem addToGroup_keys (gs : List (String × List WordEntry))
    (sig : String) (e : WordEntry) :
    (addToGroup gs sig e).map Prod.fst =
      if sig ∈ gs.map Prod.fst then gs.map Prod.fst
      else gs.map Prod.fst ++ [sig] := by
  induction gs with
  | nil => simp [addToGroup]
  | cons g gs ih =>
    simp only [addToGroup, List.map_cons]
    by_cases hg : g.1 = sig
    · rw [if_pos hg]
      simp [List.map_cons, hg]
    · rw [if_neg hg]
      simp only [List.map_cons, ih]
      by_cases hm : sig ∈ gs.map Prod.fst
      · simp [hm]
      · simp [hm, Ne.symm hg]

theorem addToGroup_keys_nodup (gs : List (String × List WordEntry))
    (sig : String) (e : WordEntry) (h : (gs.map Prod.fst).Nodup) :
    ((addToGroup gs sig e).map Prod.fst).Nodup := by
  rw [addToGroup_keys]
  by_cases hm : sig ∈ gs.map Prod.fst
  · rw [if_pos hm]
    exact h
  · rw [if_neg hm]
    rw [List.nodup_append]
    refine ⟨h, List.nodup_singleton _, ?_⟩
    intro a ha hb
    have : a = sig := by simpa using hb
    subst this
    exact hm ha

theorem addToGroup_groups_ne_nil (sig : String) (e : WordEntry) :
    ∀ gs : List (String × List WordEntry), (∀ g ∈ gs, g.2 ≠ []) →
      ∀ g ∈ addToGroup gs sig e, g.2 ≠ [] := by
  intro gs
  induction gs with
  | nil =>
    intro _ g hg
    simp only [addToGroup, List.mem_singleton] at hg
    subst hg
    simp
  | cons g0 gs ih =>
    intro h g hg
    simp only [addToGroup] at hg
    by_cases h0 : g0.1 = sig
    · rw [if_pos h0] at hg
      rcases List.mem_cons.mp hg with h1 | h1
      · subst h1
        simp
      · exact h g (List.mem_cons_of_mem _ h1)
    · rw [if_neg h0] at hg
      rcases List.mem_cons.mp hg with h1 | h1
      · subst h1
        exact h g (List.mem_cons_self _ _)
      · exact ih (fun x hx => h x (List.mem_cons_of_mem _ hx)) g h1

theorem groupBySignature_invariants (words : List WordEntry) :
    (((groupBySignature words).map Prod.fst).Nodup) ∧
      ∀ g ∈ groupBySignature words, g.2 ≠ [] := by
  suffices h : ∀ gs : List (String × List WordEntry),
      (gs.map Prod.fst).Nodup → (∀ g ∈ gs, g.2 ≠ []) →
      (((words.foldl
          (fun gs e =>
            if e.word = "" then gs
            else addToGroup gs (getLetterSignature e.word) e)
          gs).map Prod.fst).Nodup) ∧
        ∀ g ∈ words.foldl
          (fun gs e =>
            if e.word = "" then gs
            else addToGroup gs (getLetterSignature e.word) e)
          gs, g.2 ≠ [] by
    exact h [] (by simp) (by simp)
  induction words with
  | nil =>
    intro gs h1 h2
    exact ⟨h1, h2⟩
  | cons e ws ih =>
    intro gs h1 h2
    simp only [List.foldl_cons]
    by_cases he : e.word = ""
    · rw [if_pos he]
      exact ih gs h1 h2
    · rw [if_neg he]
      exact ih _ (addToGroup_keys_nodup gs _ e h1)
        (addToGroup_groups_ne_nil _ e gs h2)

theorem grpLookup_of_mem (g : String × List WordEntry) :
    ∀ gs : List (String × List WordEntry),
      (gs.map Prod.fst).Nodup → g ∈ gs → grpLookup gs g.1 = g.2 := by
  intro gs
  induction gs with
  | nil =>
    intro _ hg
    exact absurd hg (List.not_mem_nil _)
  | cons g0 gs ih =>
    intro hnd hg
    rcases List.mem_cons.mp hg with h | h
    · subst h
      simp [grpLookup]
    · have hne : g0.1 ≠ g.1 := by
        intro hh
        have hmem : g.1 ∈ gs.map Prod.fst := List.mem_map_of_mem Prod.fst h
        exact (List.nodup_cons.mp hnd).1 (hh ▸ hmem)
      simp only [grpLookup, if_neg hne]
      exact ih (List.nodup_cons.mp hnd).2 h

theorem bestOfGroup_mem (e : WordEntry) (rest : List WordEntry) :
    bestOfGroup e rest ∈ e :: rest := by
  induction rest generalizing e with
  | nil => simp [bestOfGroup]
  | cons c rs ih =>
    have hrfl : bestOfGroup e (c :: rs) =
        bestOfGroup (if Q.blt e.funScore c.funScore then c else e) rs := rfl
    rw [hrfl]
    rcases List.mem_cons.mp
        (ih (if Q.blt e.funScore c.funScore then c else e)) with h1 | h1
    · rw [h1]
      by_cases hb : Q.blt e.funScore c.funScore
      · rw [if_pos hb]
        exact List.mem_cons_of_mem _ (List.mem_cons_self _ _)
      · rw [if_neg hb]
        exact List.mem_cons_self _ _
    · exact List.mem_cons_of_mem _ (List.mem_cons_of_mem _ h1)

theorem bestOfGroup_max (rest : List WordEntry) :
    ∀ e : WordEntry, (∀ x ∈ e :: rest, 0 < x.funScore.den) →
      ∀ x ∈ e :: rest,
        x.funScore.toRat ≤ (bestOfGroup e rest).funScore.toRat := by
  induction rest with
  | nil =>
    intro e _ x hx
    have : x = e := by simpa using hx
    subst this
    exact le_refl _
  | cons c rs ih =>
    intro e hden x hx
    have hrfl : bestOfGroup e (c :: rs) =
        bestOfGroup (if Q.blt e.funScore c.funScore then c else e) rs := rfl
    rw [hrfl]
    have hde : 0 < e.funScore.den := hden e (List.mem_cons_self _ _)
    have hdc : 0 < c.funScore.den :=
      hden c (List.mem_cons_of_mem _ (List.mem_cons_self _ _))
    have hstep_mem :
        (if Q.blt e.funScore c.funScore then c else e) ∈ e :: c :: rs := by
      by_cases hb : Q.blt e.funScore c.funScore
      · rw [if_pos hb]
        exact List.mem_cons_of_mem _ (List.mem_cons_self _ _)
      · rw [if_neg hb]
        exact List.mem_cons_self _ _
    have hden' :
        ∀ y ∈ (if Q.blt e.funScore c.funScore then c else e) :: rs,
          0 < y.funScore.den := by
      intro y hy
      rcases List.mem_cons.mp hy with h | h
      · subst h
        exact hden _ hstep_mem
      · exact hden y (List.mem_cons_of_mem _ (List.mem_cons_of_mem _ h))
    have hbest := ih (if Q.blt e.funScore c.funScore then c else e) hden'
    have he_le : e.funScore.toRat ≤
        (if Q.blt e.funScore c.funScore then c else e).funScore.toRat := by
      by_cases hb : Q.blt e.funScore c.funScore
      · rw [if_pos hb]
        exact le_of_lt ((Q.blt_iff hde hdc).mp hb)
      · rw [if_neg hb]
    have hc_le : c.funScore.toRat ≤
        (if Q.blt e.funScore c.funScore then c else e).funScore.toRat := by
      by_cases hb : Q.blt e.funScore c.funScore
      · rw [if_pos hb]
      · rw [if_neg hb]
        exact le_of_not_lt (fun hlt => hb ((Q.blt_iff hde hdc).mpr hlt))
    have hstep_le :
        (if Q.blt e.funScore c.funScore then c else e).funScore.toRat ≤
          (bestOfGroup (if Q.blt e.funScore c.funScore then c else e)
            rs).funScore.toRat :=
      hbest _ (List.mem_cons_self _ _)
    rcases List.mem_cons.mp hx with h | h
    · subst h
      exact le_trans he_le hstep_le
    · rcases List.mem_cons.mp h with h2 | h2
      · subst h2
        exact le_trans hc_le hstep_le
      · exact hbest x (List.mem_cons_of_mem _ h2)

theorem pickBest_cons (e : WordEntry) (rest : List WordEntry) :
    pickBest (e :: rest) = bestOfGroup e rest := by
  cases rest <;> rfl

/-- C9: for every input list of nonempty words with (positive-denominator)
fun scores, `deduplicateWordsByLetters` returns a list in which no two kept
words share a sorted-letters signature, each kept word comes from the input
and has the maximal fun score among the input words of its signature group,
and the stats triple satisfies `original = |input|`, `kept = |output|`,
`filtered = original - kept`. -/
theorem deduplicateWordsByLetters_spec (words : List WordEntry)
    (hw : ∀ e ∈ words, e.word ≠ "")
    (hden : ∀ e ∈ words, 0 < e.funScore.den) :
    (deduplicateWordsByLetters words).stats.original = words.length ∧
    (deduplicateWordsByLetters words).stats.kept =
      (deduplicateWordsByLetters words).filteredWords.length ∧
    (deduplicateWordsByLetters words).stats.filtered =
      (deduplicateWordsByLetters words).stats.original -
        (deduplicateWordsByLetters words).stats.kept ∧
    ((deduplicateWordsByLetters words).filteredWords.map
        (fun e => getLetterSignature e.word)).Nodup ∧
    ∀ k ∈ (deduplicateWordsByLetters words).filteredWords,
      k ∈ words ∧
        ∀ e2 ∈ words,
          getLetterSignature e2.word = getLetterSignature k.word →
            e2.funScore.toRat ≤ k.funScore.toRat := by
  by_cases hnil : words.isEmpty
  · have h0 : words = [] := by simpa using hnil
    subst h0
    simp [deduplicateWordsByLetters]
  · have hD : deduplicateWordsByLetters words =
        ⟨(groupBySignature words).map (fun g => pickBest g.2),
          ⟨words.length,
            words.length -
              ((groupBySignature words).map (fun g => pickBest g.2)).length,
            ((groupBySignature words).map
              (fun g => pickBest g.2)).length⟩⟩ := by
      unfold deduplicateWordsByLetters
      rw [if_neg hnil]
    rw [hD]
    have hinv := groupBySignature_invariants words
    have hcontent : ∀ g ∈ groupBySignature words,
        g.2 = words.filter
          (fun e => decide (getLetterSignature e.word = g.1)) := by
      intro g hg
      rw [← grpLookup_groupBySignature words hw g.1]
      rw [grpLookup_of_mem g _ hinv.1 hg]
    have hpick : ∀ g ∈ groupBySignature words, pickBest g.2 ∈ g.2 := by
      intro g hg
      cases hcase : g.2 with
      | nil => exact absurd hcase (hinv.2 g hg)
      | cons e rest =>
        rw [pickBest_cons]
        exact bestOfGroup_mem e rest
    have hsig : ∀ g ∈ groupBySignature words,
        getLetterSignature (pickBest g.2).word = g.1 := by
      intro g hg
      have hm : pickBest g.2 ∈ words.filter
          (fun e => decide (getLetterSignature e.word = g.1)) := by
        rw [← hcontent g hg]
        exact hpick g hg
      exact of_decide_eq_true (List.mem_filter.mp hm).2
    refine ⟨rfl, rfl, rfl, ?_, ?_⟩
    · show (((groupBySignature words).map (fun g => pickBest g.2)).map
        (fun e => getLetterSignature e.word)).Nodup
      rw [List.map_map]
      have heq : (groupBySignature words).map
          ((fun e => getLetterSignature e.word) ∘ (fun g => pickBest g.2)) =
          (groupBySignature words).map Prod.fst := by
        apply List.map_congr_left
        intro g hg
        exact hsig g hg
      rw [heq]
      exact hinv.1
    · intro k hk
      rcases List.mem_map.mp hk with ⟨g, hg, hgk⟩
      have hmf : pickBest g.2 ∈ words.filter
          (fun e => decide (getLetterSignature e.word = g.1)) := by
        rw [← hcontent g hg]
        exact hpick g hg
      have hkw : k ∈ words := by
        rw [← hgk]
        exact (List.mem_filter.mp hmf).1
      refine ⟨hkw, ?_⟩
      intro e2 he2 hsige
      have hkg : getLetterSignature k.word = g.1 := by
        rw [← hgk]
        exact hsig g hg
      have he2f : e2 ∈ g.2 := by
        rw [hcontent g hg]
        exact List.mem_filter.mpr
          ⟨he2, decide_eq_true (by rw [hsige, hkg])⟩
      cases hcase : g.2 with
      | nil => exact absurd hcase (hinv.2 g hg)
      | cons e rest =>
        have hdeng : ∀ x ∈ e :: rest, 0 < x.funScore.den := by
          intro x hx
          rw [← hcase] at hx
          rw [hcontent g hg] at hx
          exact hden x (List.mem_filter.mp hx).1
        have hle := bestOfGroup_max rest e hdeng e2 (hcase ▸ he2f)
        rw [← hgk, hcase, pickBest_cons]
        exact hle

/-- Witness for C9 on the spec's own curation example (TOP 0.8, POT 0.6,
OPT 0.9, CAT 0.7): the hypotheses hold and the guarantees follow. -/
theorem deduplicateWordsByLetters_spec_witness :
    (∀ e ∈ exDedupWords, e.word ≠ "") ∧
    (∀ e ∈ exDedupWords, 0 < e.funScore.den) ∧
    ((deduplicateWordsByLetters exDedupWords).stats.original =
        exDedupWords.length ∧
      (deduplicateWordsByLetters exDedupWords).stats.kept =
        (deduplicateWordsByLetters exDedupWords).filteredWords.length ∧
      (deduplicateWordsByLetters exDedupWords).stats.filtered =
        (deduplicateWordsByLetters exDedupWords).stats.original -
          (deduplicateWordsByLetters exDedupWords).stats.kept ∧
      ((deduplicateWordsByLetters exDedupWords).filteredWords.map
          (fun e => getLetterSignature e.word)).Nodup ∧
      ∀ k ∈ (deduplicateWordsByLetters exDedupWords).filteredWords,
        k ∈ exDedupWords ∧
          ∀ e2 ∈ exDedupWords,
            getLetterSignature e2.word = getLetterSignature k.word →
              e2.funScore.toRat ≤ k.funScore.toRat) :=
  ⟨by decide, by decide,
    deduplicateWordsByLetters_spec exDedupWords (by decide) (by decide)⟩

end WhirlWheel
